import Mathlib

/-!
Verification of the leafclusterer marker-clustering engine.

The definitions below are a shallow embedding of the clustering engine in
`src/leafclusterer.js` (`LeafClusterer`, `Cluster`, `ClusterMarker_`) and of
its near-duplicate in `src/unnamed/part_000` (`L.Marker.Clusterer`,
`L.Marker.Cluster`, `L.Marker.ClusterMarker`).  The host map widget
(Leaflet) is modelled at its interface boundary: a `MapView` supplies the
current zoom, the maximal zoom, the current bounds and the
`latLngToLayerPoint` projection.  Geographic coordinates and pixel
coordinates are integers; the one place the source produces a non-integral
number (`Math.pow(2, dl) * gridSize` in `Cluster.isInBounds`, where `dl`
may be negative) is modelled with exact rational arithmetic.
-/

/-- A geographic coordinate, the argument of `latLngToLayerPoint` and of
`LatLngBounds.contains`. -/
structure LatLng where
  lat : Int
  lng : Int
deriving DecidableEq, Repr

/-- A pixel point in layer space, the result of `latLngToLayerPoint`. -/
structure Pt where
  x : Int
  y : Int
deriving DecidableEq, Repr

/-- A caller-owned marker.  `tag` stands for the object identity of the
`GMarker`/`L.Marker`; `pos` is what `getLatLng()` returns. -/
structure Marker where
  tag : Nat
  pos : LatLng
deriving DecidableEq, Repr

/-- The `{isAdded, marker}` record a cluster stores for each member
(`Cluster.addMarker`'s argument in the source). -/
structure MarkerRef where
  isAdded : Bool
  marker : Marker
deriving DecidableEq, Repr

/-- The state of a `ClusterMarker_` badge that is relevant to the engine:
the displayed count, whether `hide()` was called last, and the style tier
index computed by `ClusterMarker_.reset`. -/
structure Badge where
  count : Nat
  hidden : Bool
  styleIndex : Nat
deriving DecidableEq, Repr

/-- The mutable state of a `Cluster` object: `center_`, `markers_`,
`zoom_` and `clusterMarker_`. -/
structure Cluster where
  center : Option LatLng
  markers : List MarkerRef
  zoom : Int
  clusterMarker : Option Badge
deriving DecidableEq, Repr

/-- The map bounds, as returned by `map.getBounds()`. -/
structure Bounds where
  sw : LatLng
  ne : LatLng
deriving DecidableEq, Repr

/-- `LatLngBounds.contains` of the host map. -/
def Bounds.contains (b : Bounds) (p : LatLng) : Bool :=
  decide (b.sw.lat ≤ p.lat) && decide (p.lat ≤ b.ne.lat) &&
  decide (b.sw.lng ≤ p.lng) && decide (p.lng ≤ b.ne.lng)

/-- The host map at one instant: `getZoom()`, `getMaxZoom()`,
`getBounds()` and the projection `latLngToLayerPoint`. -/
structure MapView where
  zoom : Int
  maxZoom : Int
  bounds : Bounds
  project : LatLng → Pt

/-- The clusterer configuration: `gridSize_`, `maxZoom_` and the length of
the `styles_` array (5 for the built-in styles). -/
structure Config where
  gridSize : Int
  maxZoom : Option Int
  numStyles : Nat

/-- The mutable state of a `LeafClusterer`: `clusters_` and
`leftMarkers_`. -/
structure ClState where
  clusters : List Cluster
  leftMarkers : List Marker
deriving Repr

/-- The empty state a freshly constructed clusterer starts from. -/
def emptyState : ClState := { clusters := [], leftMarkers := [] }

/-- Visual side effects on the host map issued during a redraw:
`map.addLayer(marker)` and `map.removeLayer(marker)` for member
markers. -/
inductive MapAct where
  | attach (m : Marker)
  | detach (m : Marker)
deriving DecidableEq, Repr

/-- Structural helper for the digit loop of `ClusterMarker_.reset`; the
first argument is fuel, always supplied as at least the count itself, so
the middle arm is never reached on such calls. -/
def digitLoop : Nat → Nat → Nat
  | _, 0 => 0
  | 0, _ + 1 => 1
  | fuel + 1, n + 1 => digitLoop fuel ((n + 1) / 10) + 1

/-- The number of iterations of the digit loop in `ClusterMarker_.reset`:
`while (dv !== 0) { dv = parseInt(dv / 10, 10); index++; }`. -/
def digitCount (n : Nat) : Nat := digitLoop n n

/-- The style tier index selected by `ClusterMarker_.reset` for a count
`n`: the digit count of `n`, lowered to `numStyles` when it exceeds it
(`if (styles.length < index) index = styles.length`). -/
def styleIndexOfCount (n : Nat) (numStyles : Nat) : Nat :=
  let index := digitCount n
  if numStyles < index then numStyles else index

/-- The badge state after the aggregate branch of `Cluster.redraw_`
touches it.  When no badge exists, `new ClusterMarker_(center, count,
styles, gridSize/2)` runs `reset`, which records the count and the style
tier and leaves the marker shown; when one exists,
`reset({count}); redraw(); if (isHidden()) show()` records the same count
and tier (recomputing the tier only when the count changed, which yields
the same value) and shows the marker. -/
def updateBadge (n : Nat) (numStyles : Nat) : Badge :=
  { count := n, hidden := false, styleIndex := styleIndexOfCount n numStyles }

/-- `Cluster.addMarker`: fix `center_` on the first member, push the
record. -/
def Cluster.addMarker (c : Cluster) (r : MarkerRef) : Cluster :=
  { c with
    center := match c.center with
      | none => some r.marker.pos
      | some p => some p
    markers := c.markers ++ [r] }

/-- The cluster built by `new Cluster(this, map)`: no center, no members,
no badge, zoom stamped with the map's current zoom. -/
def freshCluster (v : MapView) : Cluster :=
  { center := none, markers := [], zoom := v.zoom, clusterMarker := none }

/-- The member-removal scan of `Cluster.removeMarker`: drop the first
record whose `marker` field is the given marker, or report a miss. -/
def removeFirstRef (m : Marker) : List MarkerRef → Option (List MarkerRef)
  | [] => none
  | r :: rs =>
    if r.marker = m then some rs
    else (removeFirstRef m rs).map (fun rs' => r :: rs')

/-- `Cluster.removeMarker`: returns the updated cluster and whether the
marker was found (the source also issues `map.removeLayer` for a placed
member, a visual effect). -/
def Cluster.removeMarker (c : Cluster) (m : Marker) : Cluster × Bool :=
  match removeFirstRef m c.markers with
  | some ms => ({ c with markers := ms }, true)
  | none => (c, false)

/-- `Cluster.clearMarkers`: empties `markers_`.  The source detaches the
badge and the placed members from the map but resets neither `center_`
nor `clusterMarker_`. -/
def Cluster.clearMarkers (c : Cluster) : Cluster :=
  { c with markers := [] }

/-- `Cluster.getTotalMarkers`. -/
def Cluster.getTotalMarkers (c : Cluster) : Nat :=
  c.markers.length

/-- `Cluster.isInBounds`: false on an empty center; otherwise the
axis-aligned test of the source against the effective grid size
`Math.pow(2, dl) * gridSize` with `dl = currentZoom - zoom_` (the factor
is 1 when the zooms agree).  The effective grid size is the exact
rational `2 ^ dl * gridSize_`, possibly fractional for negative `dl`;
each comparison is carried out here in exact integer arithmetic after
multiplying through by the positive denominator `2 ^ max 0 (-dl)`, and
the zoom-rescaling claim proves this equal to the rational
comparisons. -/
def Cluster.isInBounds (cfg : Config) (v : MapView) (c : Cluster) (b : Bounds) : Bool :=
  match c.center with
  | none => false
  | some ctr =>
    let sw := v.project b.sw
    let ne := v.project b.ne
    let centerxy := v.project ctr
    let dl := v.zoom - c.zoom
    let num : Int := if 0 ≤ dl then cfg.gridSize * 2 ^ dl.toNat else cfg.gridSize
    let den : Int := if 0 ≤ dl then 1 else 2 ^ (-dl).toNat
    let inViewport := true
    let inViewport :=
      if ne.x ≠ sw.x ∧
          (den * centerxy.x + num < den * sw.x ∨
           den * centerxy.x - num > den * ne.x) then false
      else inViewport
    let inViewport :=
      if inViewport = true ∧
          (den * centerxy.y + num < den * ne.y ∨
           den * centerxy.y - num > den * sw.y) then false
      else inViewport
    inViewport

/-- The grid-square test of `LeafClusterer.addMarker`: a cluster with a
projected center within `gridSize_` pixels of `pos` on both axes accepts
the marker; a cluster with an empty center is skipped (`continue`). -/
def clusterFits (v : MapView) (g : Int) (pos : Pt) (c : Cluster) : Bool :=
  match c.center with
  | none => false
  | some ctr =>
    let center := v.project ctr
    decide (center.x - g ≤ pos.x) && decide (pos.x ≤ center.x + g) &&
    decide (center.y - g ≤ pos.y) && decide (pos.y ≤ center.y + g)

/-- The cluster scan of `LeafClusterer.addMarker`: the source iterates the
candidate list from the last index down to 0 and stops at the first
fitting cluster, so the recursion tries the tail (the later insertions)
before the head; on a hit the fitting cluster is replaced by `f` of it
(the marker append, plus the optional redraw). -/
def insertWith (v : MapView) (g : Int) (pos : Pt) (f : Cluster → Cluster) :
    List Cluster → Option (List Cluster)
  | [] => none
  | c :: cs =>
    match insertWith v g pos f cs with
    | some cs' => some (c :: cs')
    | none => if clusterFits v g pos c then some (f c :: cs) else none

/-- The redraw of `Cluster.redraw_`.  Returns the updated cluster together
with the `addLayer`/`removeLayer` calls issued for member markers.  When
neither forced nor in bounds, nothing happens.  Otherwise `zoom_` is
stamped with the current zoom and the mode is chosen: individual when the
current zoom reaches the effective max zoom (`maxZoom_`, defaulting to the
map's max zoom) or the cluster has exactly one member — every member is
attached and flagged placed and an existing badge is hidden; aggregate
otherwise — every member flagged placed is detached (the source does not
reset the flag) and the badge is created or updated for the member
count. -/
def redrawCluster (cfg : Config) (v : MapView) (c : Cluster) (isForce : Bool) :
    Cluster × List MapAct :=
  if !isForce && !(Cluster.isInBounds cfg v c v.bounds) then
    (c, [])
  else
    let c := { c with zoom := v.zoom }
    let mz := cfg.maxZoom.getD v.maxZoom
    if v.zoom ≥ mz ∨ c.getTotalMarkers = 1 then
      ({ c with
          markers := c.markers.map (fun r => { r with isAdded := true }),
          clusterMarker := c.clusterMarker.map (fun b => { b with hidden := true }) },
        c.markers.map (fun r => MapAct.attach r.marker))
    else
      ({ c with clusterMarker := some (updateBadge c.getTotalMarkers cfg.numStyles) },
        (c.markers.filter (fun r => r.isAdded)).map (fun r => MapAct.detach r.marker))

/-- What the hit of the cluster scan in `LeafClusterer.addMarker` does to
the fitting cluster: `cluster.addMarker({isAdded, marker})`, then
`cluster.redraw_()` unless redraw is suppressed. -/
def addStep (cfg : Config) (v : MapView) (r : MarkerRef) (isNodraw : Bool)
    (c : Cluster) : Cluster :=
  if isNodraw then c.addMarker r else (redrawCluster cfg v (c.addMarker r) false).1

/-- `LeafClusterer.addMarker` in the default mode, where the candidate
list is `clusters_` itself (`opt_clusters` null).  Unless `isNoCheck`, an
out-of-viewport marker is pushed onto `leftMarkers_` and nothing else
happens.  Otherwise the reverse scan either appends the record to the
last-inserted fitting cluster or creates a new one appended to
`clusters_`; unless `isNodraw`, the touched cluster is redrawn (without
force). -/
def LeafClusterer.addMarker (cfg : Config) (v : MapView) (st : ClState)
    (m : Marker) (isNodraw : Bool) (isAdded : Bool) (isNoCheck : Bool) : ClState :=
  if !isNoCheck && !(v.bounds.contains m.pos) then
    { st with leftMarkers := st.leftMarkers ++ [m] }
  else
    let pos := v.project m.pos
    let r : MarkerRef := { isAdded := isAdded, marker := m }
    match insertWith v cfg.gridSize pos (addStep cfg v r isNodraw) st.clusters with
    | some cls => { st with clusters := cls }
    | none =>
      let c := addStep cfg v r isNodraw (freshCluster v)
      { st with clusters := st.clusters ++ [c] }

/-- `LeafClusterer.addMarker` with a caller-supplied candidate list
distinct from `clusters_`, as invoked by `reAddMarkers_` (isNodraw and
isNoCheck are both true there, so no viewport check and no redraw).  The
source pushes a newly created cluster onto both the candidate array and
`clusters_`; since every cluster of the candidate array is also kept in
`clusters_` (as the same shared object), the global list stays equal to
the untouched clusters followed by the candidate list, so this function
returns the candidate list only. -/
def addToCandidates (cfg : Config) (v : MapView) (r : MarkerRef)
    (cands : List Cluster) : List Cluster :=
  let pos := v.project r.marker.pos
  match insertWith v cfg.gridSize pos (fun c => c.addMarker r) cands with
  | some cands' => cands'
  | none => cands ++ [(freshCluster v).addMarker r]

/-- The loop of `reAddMarkers_`: `for (i = len - 1; i >= 0; --i)` feeds the
collected records to `addMarker` last-first, against the candidate
list. -/
def reAddLoop (cfg : Config) (v : MapView) :
    List MarkerRef → List Cluster → List Cluster
  | [], cands => cands
  | r :: rest, cands => addToCandidates cfg v r (reAddLoop cfg v rest cands)

/-- `addLeftMarkers_`: every pending marker is fed back through
`addMarker(marker, true, null, null, true)` — redraw suppressed, default
candidate list, viewport check bypassed — and `leftMarkers_` is then
replaced by a fresh empty array.  (The early return on an empty list
yields the same state.) -/
def addLeftMarkers (cfg : Config) (v : MapView) (st : ClState) : ClState :=
  { st.leftMarkers.foldl
      (fun s lm => LeafClusterer.addMarker cfg v s lm true false true) st
    with leftMarkers := [] }

/-- Drop the first occurrence of a cluster value, modelling the
identity-based removal `for (j ...) if (cluster === clusters_[j])
clusters_.splice(j, 1)` (each cluster object is pushed onto `clusters_`
exactly once, so the identity scan removes one entry; the entry still
holds the cluster's pre-`clearMarkers` value here because this model has
no shared mutable objects). -/
def removeFirstCluster (c : Cluster) : List Cluster → List Cluster
  | [] => []
  | d :: ds => if d = c then ds else d :: removeFirstCluster c ds

/-- The dissolution loop of `resetViewport` over the viewport snapshot:
a snapshot cluster whose remembered zoom differs from the current zoom
has its member records collected (re-tagged `isAdded: false`), is cleared
and is removed from the global list; the others are left alone.  (The
`oldZoom === null` skip never fires: `zoom_` is always a number.) -/
def resetLoop (v : MapView) :
    List Cluster → List Cluster × List MarkerRef → List Cluster × List MarkerRef
  | [], s => s
  | c :: rest, (cls, tmp) =>
    if c.zoom = v.zoom then
      resetLoop v rest (cls, tmp)
    else
      resetLoop v rest
        (removeFirstCluster c cls,
         tmp ++ c.markers.map (fun r => { isAdded := false, marker := r.marker }))

/-- `getClustersInViewport_`. -/
def getClustersInViewport (cfg : Config) (v : MapView) (st : ClState) : List Cluster :=
  st.clusters.filter (fun c => Cluster.isInBounds cfg v c v.bounds)

/-- `LeafClusterer.redraw_`: force-redraw every cluster of the viewport
snapshot (each cluster object occurs once in `clusters_`, so mutating the
snapshot's objects is mapping over the in-viewport entries of
`clusters_`). -/
def redrawAll (cfg : Config) (v : MapView) (st : ClState) : ClState :=
  { st with clusters := st.clusters.map (fun c =>
      if Cluster.isInBounds cfg v c v.bounds then (redrawCluster cfg v c true).1 else c) }

/-- `LeafClusterer.resetViewport`: dissolve the stale in-viewport
clusters, re-place their markers through `reAddMarkers_` (which finishes
with `addLeftMarkers_`), then redraw the viewport. -/
def applyReset (cfg : Config) (v : MapView) (st : ClState) : ClState :=
  let snapshot := getClustersInViewport cfg v st
  let s := resetLoop v snapshot (st.clusters, [])
  let cls := s.1 ++ reAddLoop cfg v s.2 []
  let st' := addLeftMarkers cfg v { clusters := cls, leftMarkers := st.leftMarkers }
  redrawAll cfg v st'

/-- The scan of `LeafClusterer.removeMarker`: the first cluster whose
member-removal call reports a hit is updated and redrawn (without force),
and the scan stops; a miss everywhere changes nothing.  The source spells
the member-removal call `clusters_[i].remove(marker)`; the only
member-removal method the cluster class defines is `removeMarker`, which
is what the scan is modelled with here (the spelling is settled under the
claim about removal). -/
def removeScan (cfg : Config) (v : MapView) (m : Marker) : List Cluster → List Cluster
  | [] => []
  | c :: cs =>
    match Cluster.removeMarker c m with
    | (c', true) => (redrawCluster cfg v c' false).1 :: cs
    | (_, false) => c :: removeScan cfg v m cs

/-- `LeafClusterer.removeMarker`. -/
def LeafClusterer.removeMarker (cfg : Config) (v : MapView) (st : ClState)
    (m : Marker) : ClState :=
  { st with clusters := removeScan cfg v m st.clusters }

/-- `LeafClusterer.addMarkers`: add each with redraw suppressed, then one
viewport redraw pass. -/
def LeafClusterer.addMarkers (cfg : Config) (v : MapView) (st : ClState)
    (ms : List Marker) : ClState :=
  redrawAll cfg v
    (ms.foldl (fun s m => LeafClusterer.addMarker cfg v s m true false false) st)

/-- `LeafClusterer.getTotalMarkers`: the member counts of the clusters
summed; pending markers are not counted. -/
def LeafClusterer.getTotalMarkers (st : ClState) : Nat :=
  (st.clusters.map (fun c => c.getTotalMarkers)).sum

/-- One public operation of the engine, each performed against the host
map's state at that instant. -/
inductive Op where
  | add (v : MapView) (m : Marker)
  | addMany (v : MapView) (ms : List Marker)
  | remove (v : MapView) (m : Marker)
  | reset (v : MapView)

/-- The state transition of one public operation.  A public
`addMarker(marker)` call passes no optional arguments, so redraw happens,
`isAdded` defaults to false and the viewport check runs. -/
def applyOp (cfg : Config) (st : ClState) : Op → ClState
  | .add v m => LeafClusterer.addMarker cfg v st m false false false
  | .addMany v ms => LeafClusterer.addMarkers cfg v st ms
  | .remove v m => LeafClusterer.removeMarker cfg v st m
  | .reset v => applyReset cfg v st

/-- Run a sequence of public operations. -/
def run (cfg : Config) (st : ClState) : List Op → ClState
  | [] => st
  | op :: ops => run cfg (applyOp cfg st op) ops

/-- How often a marker occurs among a cluster's member records. -/
def Cluster.countMarker (c : Cluster) (m : Marker) : Nat :=
  c.markers.countP (fun r => decide (r.marker = m))

/-- How often a marker occurs across all clusters of a list. -/
def clustersCount (cls : List Cluster) (m : Marker) : Nat :=
  (cls.map (fun c => c.countMarker m)).sum

/-- How often a marker occurs anywhere in the engine: across all
clusters' member lists plus the pending list. -/
def totalCount (st : ClState) (m : Marker) : Nat :=
  clustersCount st.clusters m + st.leftMarkers.count m

/-- How often a marker occurs in a list of member records. -/
def countRefs (ms : List MarkerRef) (m : Marker) : Nat :=
  ms.countP (fun r => decide (r.marker = m))

/-- The axis-aligned overlap test of `Cluster.isInBounds`, abstracted
over the effective half-size: the cluster's square footprint of the given
half-size around the projected center against the projected bounds
corners (pixel y grows southward, so the `ne` corner has the smaller
y). -/
def overlapTest (sw ne centerxy : Pt) (halfSize : ℚ) : Bool :=
  let inViewport := true
  let inViewport :=
    if ne.x ≠ sw.x ∧
        ((centerxy.x : ℚ) + halfSize < (sw.x : ℚ) ∨
         (centerxy.x : ℚ) - halfSize > (ne.x : ℚ)) then false
    else inViewport
  let inViewport :=
    if inViewport = true ∧
        ((centerxy.y : ℚ) + halfSize < (ne.y : ℚ) ∨
         (centerxy.y : ℚ) - halfSize > (sw.y : ℚ)) then false
    else inViewport
  inViewport

/-- The display-mode decision of `Cluster.redraw_`: individual markers
when the current zoom reaches the effective max zoom or the cluster has
exactly one member, the aggregate badge otherwise. -/
def displayIndividual (cfg : Config) (v : MapView) (c : Cluster) : Bool :=
  decide (v.zoom ≥ cfg.maxZoom.getD v.maxZoom) || decide (c.getTotalMarkers = 1)

/-- The markers a sequence of public operations registers (the arguments
of its `addMarker` and `addMarkers` calls, in order). -/
def addsOf : List Op → List Marker
  | [] => []
  | Op.add _ m :: ops => m :: addsOf ops
  | Op.addMany _ ms :: ops => ms ++ addsOf ops
  | Op.remove _ _ :: ops => addsOf ops
  | Op.reset _ :: ops => addsOf ops

/-- The markers a sequence of public operations asks to remove. -/
def removesOf : List Op → List Marker
  | [] => []
  | Op.remove _ m :: ops => m :: removesOf ops
  | Op.add _ _ :: ops => removesOf ops
  | Op.addMany _ _ :: ops => removesOf ops
  | Op.reset _ :: ops => removesOf ops

/-- The instance methods the source defines on the cluster class
(`Cluster` in src/leafclusterer.js, and likewise `L.Marker.Cluster` in
src/unnamed/part_000). -/
def clusterMethodNames : List String :=
  ["getMarkers", "isInBounds", "getCenter", "addMarker", "removeMarker",
   "getCurrentZoom", "redraw_", "clearMarkers", "getTotalMarkers"]

/-- The method name `LeafClusterer.removeMarker` invokes on each cluster
of the scan: `clusters_[i].remove(marker)` (identical in
`L.Marker.Clusterer.removeMarker`: `this._clusters[i].remove(marker)`). -/
def removalCallTarget : String := "remove"

namespace LMC

/-!
Shallow embedding of the second implementation,
`src/unnamed/part_000` (`L.Marker.Clusterer` / `L.Marker.Cluster` /
`L.Marker.ClusterMarker`), translated independently of the embedding
above.  The host-map types (`LatLng`, `Pt`, `Marker`, `MarkerRef`,
`Bounds`, `MapView`, `Config`, `Badge`) are shared: both sources consume
the identical Leaflet interface, store the identical
`{isAdded, marker}` records, and run the identical
`ClusterMarker.reset` style arithmetic.
-/

/-- The state of an `L.Marker.Cluster` object: `_center`, `_markers`,
`_zoom` and `_clusterMarker`. -/
structure Cluster where
  center : Option LatLng
  markers : List MarkerRef
  zoom : Int
  clusterMarker : Option Badge
deriving DecidableEq, Repr

/-- The state of an `L.Marker.Clusterer`: `_clusters` and
`_leftMarkers`. -/
structure ClState where
  clusters : List Cluster
  leftMarkers : List Marker
deriving Repr

/-- The state a freshly initialized `L.Marker.Clusterer` starts from. -/
def emptyState : ClState := { clusters := [], leftMarkers := [] }

/-- `L.Marker.Cluster.addMarker`. -/
def Cluster.addMarker (c : Cluster) (r : MarkerRef) : Cluster :=
  { c with
    center := match c.center with
      | none => some r.marker.pos
      | some p => some p
    markers := c.markers ++ [r] }

/-- The cluster built by `new L.Marker.Cluster(this, this._map)`. -/
def freshCluster (v : MapView) : Cluster :=
  { center := none, markers := [], zoom := v.zoom, clusterMarker := none }

/-- The member scan of `L.Marker.Cluster.removeMarker`. -/
def removeFirstRef (m : Marker) : List MarkerRef → Option (List MarkerRef)
  | [] => none
  | r :: rs =>
    if r.marker = m then some rs
    else (removeFirstRef m rs).map (fun rs' => r :: rs')

/-- `L.Marker.Cluster.removeMarker`. -/
def Cluster.removeMarker (c : Cluster) (m : Marker) : Cluster × Bool :=
  match removeFirstRef m c.markers with
  | some ms => ({ c with markers := ms }, true)
  | none => (c, false)

/-- `L.Marker.Cluster.getTotalMarkers`. -/
def Cluster.getTotalMarkers (c : Cluster) : Nat :=
  c.markers.length

/-- `L.Marker.Cluster.isInBounds` (line for line the test of the other
implementation, in the same exact integer encoding of the rational
comparisons). -/
def Cluster.isInBounds (cfg : Config) (v : MapView) (c : Cluster) (b : Bounds) : Bool :=
  match c.center with
  | none => false
  | some ctr =>
    let sw := v.project b.sw
    let ne := v.project b.ne
    let centerxy := v.project ctr
    let dl := v.zoom - c.zoom
    let num : Int := if 0 ≤ dl then cfg.gridSize * 2 ^ dl.toNat else cfg.gridSize
    let den : Int := if 0 ≤ dl then 1 else 2 ^ (-dl).toNat
    let inViewport := true
    let inViewport :=
      if ne.x ≠ sw.x ∧
          (den * centerxy.x + num < den * sw.x ∨
           den * centerxy.x - num > den * ne.x) then false
      else inViewport
    let inViewport :=
      if inViewport = true ∧
          (den * centerxy.y + num < den * ne.y ∨
           den * centerxy.y - num > den * sw.y) then false
      else inViewport
    inViewport

/-- `L.Marker.Cluster._redraw`.  The only difference from the other
implementation's redraw is how a fresh badge is constructed
(`new L.Marker.ClusterMarker(this, styles)` reads the center, count and
padding from the cluster instead of taking them as arguments), which
yields the same badge state. -/
def redrawCluster (cfg : Config) (v : MapView) (c : Cluster) (isForce : Bool) :
    Cluster × List MapAct :=
  if !isForce && !(Cluster.isInBounds cfg v c v.bounds) then
    (c, [])
  else
    let c := { c with zoom := v.zoom }
    let mz := cfg.maxZoom.getD v.maxZoom
    if v.zoom ≥ mz ∨ c.getTotalMarkers = 1 then
      ({ c with
          markers := c.markers.map (fun r => { r with isAdded := true }),
          clusterMarker := c.clusterMarker.map (fun b => { b with hidden := true }) },
        c.markers.map (fun r => MapAct.attach r.marker))
    else
      ({ c with clusterMarker := some (updateBadge c.getTotalMarkers cfg.numStyles) },
        (c.markers.filter (fun r => r.isAdded)).map (fun r => MapAct.detach r.marker))

/-- The display-mode decision of `L.Marker.Cluster._redraw`. -/
def displayIndividual (cfg : Config) (v : MapView) (c : Cluster) : Bool :=
  decide (v.zoom ≥ cfg.maxZoom.getD v.maxZoom) || decide (c.getTotalMarkers = 1)

/-- The grid-square test of `L.Marker.Clusterer.addMarker` against
`this._gridSize`. -/
def clusterFits (v : MapView) (g : Int) (pos : Pt) (c : Cluster) : Bool :=
  match c.center with
  | none => false
  | some ctr =>
    let center := v.project ctr
    decide (center.x - g ≤ pos.x) && decide (pos.x ≤ center.x + g) &&
    decide (center.y - g ≤ pos.y) && decide (pos.y ≤ center.y + g)

/-- The reverse cluster scan of `L.Marker.Clusterer.addMarker`. -/
def insertWith (v : MapView) (g : Int) (pos : Pt) (f : Cluster → Cluster) :
    List Cluster → Option (List Cluster)
  | [] => none
  | c :: cs =>
    match insertWith v g pos f cs with
    | some cs' => some (c :: cs')
    | none => if clusterFits v g pos c then some (f c :: cs) else none

/-- What the hit of the cluster scan in `L.Marker.Clusterer.addMarker`
does to the fitting cluster. -/
def addStep (cfg : Config) (v : MapView) (r : MarkerRef) (isNodraw : Bool)
    (c : Cluster) : Cluster :=
  if isNodraw then c.addMarker r else (redrawCluster cfg v (c.addMarker r) false).1

/-- `L.Marker.Clusterer.addMarker` with the default candidate list. -/
def addMarker (cfg : Config) (v : MapView) (st : ClState)
    (m : Marker) (isNodraw : Bool) (isAdded : Bool) (isNoCheck : Bool) : ClState :=
  if !isNoCheck && !(v.bounds.contains m.pos) then
    { st with leftMarkers := st.leftMarkers ++ [m] }
  else
    let pos := v.project m.pos
    let r : MarkerRef := { isAdded := isAdded, marker := m }
    match insertWith v cfg.gridSize pos (addStep cfg v r isNodraw) st.clusters with
    | some cls => { st with clusters := cls }
    | none =>
      let c := addStep cfg v r isNodraw (freshCluster v)
      { st with clusters := st.clusters ++ [c] }

/-- `L.Marker.Clusterer.addMarker` with the caller-supplied candidate
list of `_reAddMarkers` (redraw suppressed, viewport check bypassed
there); as above, the global `_clusters` stays equal to the untouched
clusters followed by the candidate list. -/
def addToCandidates (cfg : Config) (v : MapView) (r : MarkerRef)
    (cands : List Cluster) : List Cluster :=
  let pos := v.project r.marker.pos
  match insertWith v cfg.gridSize pos (fun c => c.addMarker r) cands with
  | some cands' => cands'
  | none => cands ++ [(freshCluster v).addMarker r]

/-- The loop of `_reAddMarkers`, feeding the collected records to
`addMarker` last-first. -/
def reAddLoop (cfg : Config) (v : MapView) :
    List MarkerRef → List Cluster → List Cluster
  | [], cands => cands
  | r :: rest, cands => addToCandidates cfg v r (reAddLoop cfg v rest cands)

/-- `_addLeftMarkers`. -/
def addLeftMarkers (cfg : Config) (v : MapView) (st : ClState) : ClState :=
  { st.leftMarkers.foldl
      (fun s lm => addMarker cfg v s lm true false true) st
    with leftMarkers := [] }

/-- The identity-based `splice` of `resetViewport` on `_clusters`. -/
def removeFirstCluster (c : Cluster) : List Cluster → List Cluster
  | [] => []
  | d :: ds => if d = c then ds else d :: removeFirstCluster c ds

/-- The dissolution loop of `L.Marker.Clusterer.resetViewport`. -/
def resetLoop (v : MapView) :
    List Cluster → List Cluster × List MarkerRef → List Cluster × List MarkerRef
  | [], s => s
  | c :: rest, (cls, tmp) =>
    if c.zoom = v.zoom then
      resetLoop v rest (cls, tmp)
    else
      resetLoop v rest
        (removeFirstCluster c cls,
         tmp ++ c.markers.map (fun r => { isAdded := false, marker := r.marker }))

/-- `L.Marker.Clusterer.getClustersInViewport`. -/
def getClustersInViewport (cfg : Config) (v : MapView) (st : ClState) : List Cluster :=
  st.clusters.filter (fun c => Cluster.isInBounds cfg v c v.bounds)

/-- `L.Marker.Clusterer.redraw`. -/
def redrawAll (cfg : Config) (v : MapView) (st : ClState) : ClState :=
  { st with clusters := st.clusters.map (fun c =>
      if Cluster.isInBounds cfg v c v.bounds then (redrawCluster cfg v c true).1 else c) }

/-- `L.Marker.Clusterer.resetViewport`. -/
def applyReset (cfg : Config) (v : MapView) (st : ClState) : ClState :=
  let snapshot := getClustersInViewport cfg v st
  let s := resetLoop v snapshot (st.clusters, [])
  let cls := s.1 ++ reAddLoop cfg v s.2 []
  let st' := addLeftMarkers cfg v { clusters := cls, leftMarkers := st.leftMarkers }
  redrawAll cfg v st'

/-- The scan of `L.Marker.Clusterer.removeMarker`, with the
`this._clusters[i].remove(marker)` call resolved to the class's one
member-removal method, as in the other implementation. -/
def removeScan (cfg : Config) (v : MapView) (m : Marker) : List Cluster → List Cluster
  | [] => []
  | c :: cs =>
    match Cluster.removeMarker c m with
    | (c', true) => (redrawCluster cfg v c' false).1 :: cs
    | (_, false) => c :: removeScan cfg v m cs

/-- `L.Marker.Clusterer.removeMarker`. -/
def removeMarker (cfg : Config) (v : MapView) (st : ClState) (m : Marker) : ClState :=
  { st with clusters := removeScan cfg v m st.clusters }

/-- `L.Marker.Clusterer.addMarkers`. -/
def addMarkers (cfg : Config) (v : MapView) (st : ClState) (ms : List Marker) : ClState :=
  redrawAll cfg v
    (ms.foldl (fun s m => addMarker cfg v s m true false false) st)

/-- The state transition of one public operation of this
implementation. -/
def applyOp (cfg : Config) (st : ClState) : Op → ClState
  | Op.add v m => addMarker cfg v st m false false false
  | Op.addMany v ms => addMarkers cfg v st ms
  | Op.remove v m => removeMarker cfg v st m
  | Op.reset v => applyReset cfg v st

/-- Run a sequence of public operations on this implementation. -/
def run (cfg : Config) (st : ClState) : List Op → ClState
  | [] => st
  | op :: ops => run cfg (applyOp cfg st op) ops

end LMC

/-- Field-for-field translation of a cluster of the first implementation
into one of the second (`center_` to `_center`, `markers_` to `_markers`,
`zoom_` to `_zoom`, `clusterMarker_` to `_clusterMarker`). -/
def toL (c : Cluster) : LMC.Cluster :=
  { center := c.center, markers := c.markers, zoom := c.zoom,
    clusterMarker := c.clusterMarker }

/-- Translation of a clusterer state of the first implementation into one
of the second. -/
def toLState (st : ClState) : LMC.ClState :=
  { clusters := st.clusters.map toL, leftMarkers := st.leftMarkers }

/-- A concrete host-map viewport for witnesses: bounds (-100,-100) to
(100,100). -/
def testBounds : Bounds := { sw := { lat := -100, lng := -100 }, ne := { lat := 100, lng := 100 } }

/-- A concrete projection: pixel x is the longitude, pixel y the negated
latitude (pixel y grows southward). -/
def testProject : LatLng → Pt := fun p => { x := p.lng, y := -p.lat }

/-- A concrete host map at zoom 10, max zoom 18. -/
def testView : MapView :=
  { zoom := 10, maxZoom := 18, bounds := testBounds, project := testProject }

/-- A wider viewport, seen after a pan/zoom gesture. -/
def wideBounds : Bounds := { sw := { lat := -300, lng := -300 }, ne := { lat := 300, lng := 300 } }

/-- The host map after zooming in one level (the projection doubles). -/
def testViewZoomed : MapView :=
  { zoom := 11, maxZoom := 18, bounds := wideBounds,
    project := fun p => { x := 2 * p.lng, y := -2 * p.lat } }

/-- A concrete configuration: gridSize 40, maxZoom 18, 5 style tiers. -/
def testConfig : Config := { gridSize := 40, maxZoom := some 18, numStyles := 5 }

/-- Concrete markers. -/
def markerA : Marker := { tag := 0, pos := { lat := 0, lng := 0 } }

/-- A marker 10 pixels from `markerA` under `testProject`. -/
def markerB : Marker := { tag := 1, pos := { lat := 10, lng := 10 } }

/-- A marker outside `testBounds`. -/
def markerC : Marker := { tag := 2, pos := { lat := 200, lng := 200 } }

/-- A concrete two-member cluster. -/
def testClusterTwo : Cluster :=
  ((freshCluster testView).addMarker { isAdded := false, marker := markerA }).addMarker
    { isAdded := true, marker := markerB }

/-- An addition comparison against a scaled half-size, carried out in
integers after multiplying through by the positive denominator, agrees
with the rational comparison. -/
theorem scaled_add_lt (a n b d : Int) (hd : 0 < d) :
    (d * a + n < d * b) ↔ ((a : ℚ) + (n : ℚ) / (d : ℚ) < (b : ℚ)) := by
  have hdq : (0 : ℚ) < (d : ℚ) := by exact_mod_cast hd
  constructor
  · intro h
    have h' : (d : ℚ) * a + n < (d : ℚ) * b := by exact_mod_cast h
    have hn : (n : ℚ) / d < b - a := by
      rw [div_lt_iff hdq]
      nlinarith
    linarith
  · intro h
    have hn : (n : ℚ) / d < b - a := by linarith
    rw [div_lt_iff hdq] at hn
    have h' : (d : ℚ) * a + n < (d : ℚ) * b := by nlinarith
    exact_mod_cast h'

/-- A subtraction comparison against a scaled half-size, carried out in
integers after multiplying through by the positive denominator, agrees
with the rational comparison. -/
theorem scaled_sub_gt (a n b d : Int) (hd : 0 < d) :
    (d * a - n > d * b) ↔ ((a : ℚ) - (n : ℚ) / (d : ℚ) > (b : ℚ)) := by
  have hdq : (0 : ℚ) < (d : ℚ) := by exact_mod_cast hd
  constructor
  · intro h
    have h' : (d : ℚ) * b < (d : ℚ) * a - n := by exact_mod_cast h
    have hn : (n : ℚ) / d < a - b := by
      rw [div_lt_iff hdq]
      nlinarith
    show (b : ℚ) < a - n / d
    linarith
  · intro h
    have hb : (b : ℚ) < a - n / d := h
    have hn : (n : ℚ) / d < a - b := by linarith
    rw [div_lt_iff hdq] at hn
    have h' : (d : ℚ) * b < (d : ℚ) * a - n := by nlinarith
    exact_mod_cast h'

/-- The integer numerator/denominator pair used by `Cluster.isInBounds`
represents exactly the rational effective half-size
`2 ^ dl * gridSize`. -/
theorem effHalf_eq (g dl : Int) :
    (((if 0 ≤ dl then g * 2 ^ dl.toNat else g : Int) : ℚ) /
      ((if 0 ≤ dl then 1 else 2 ^ (-dl).toNat : Int) : ℚ)) =
    (2 : ℚ) ^ dl * (g : ℚ) := by
  by_cases hdl : 0 ≤ dl
  · rw [if_pos hdl, if_pos hdl]
    push_cast
    rw [div_one]
    rw [show ((2 : ℚ) ^ dl.toNat : ℚ) = (2 : ℚ) ^ dl by
      rw [← zpow_natCast, Int.toNat_of_nonneg hdl]]
    ring
  · rw [if_neg hdl, if_neg hdl]
    push_cast
    rw [show ((2 : ℚ) ^ (-dl).toNat : ℚ) = (2 : ℚ) ^ (-dl) by
      rw [← zpow_natCast, Int.toNat_of_nonneg (by omega)]]
    rw [zpow_neg, div_eq_mul_inv, inv_inv]
    ring

/-- Claim C5: `Cluster.isInBounds` returns false whenever the cluster's
center is unset; otherwise it is exactly the axis-aligned overlap test
`overlapTest` between the given bounds and the cluster's square
footprint, run with effective half-size
`2 ^ (currentZoom - rememberedZoom) * gridSize` — which is `gridSize`
itself when the remembered zoom equals the current zoom (the exponent is
zero), and `2 ^ k * gridSize` for a cluster stamped at zoom `Z` tested at
zoom `Z + k`. -/
theorem claim_C5 (cfg : Config) (v : MapView) (c : Cluster) (b : Bounds) :
    (c.center = none → Cluster.isInBounds cfg v c b = false) ∧
    (∀ ctr, c.center = some ctr →
      Cluster.isInBounds cfg v c b =
        overlapTest (v.project b.sw) (v.project b.ne) (v.project ctr)
          ((2 : ℚ) ^ (v.zoom - c.zoom) * (cfg.gridSize : ℚ))) := by
  obtain ⟨center, ms, z, bd⟩ := c
  constructor
  · rintro rfl
    rfl
  · rintro ctr rfl
    simp only [Cluster.isInBounds, overlapTest]
    set dl := v.zoom - z with hdl
    set num : Int := if 0 ≤ dl then cfg.gridSize * 2 ^ dl.toNat else cfg.gridSize with hnum
    set den : Int := if 0 ≤ dl then 1 else 2 ^ (-dl).toNat with hden
    have hd : 0 < den := by
      rw [hden]
      split
      · norm_num
      · positivity
    have heff : ((num : ℚ) / (den : ℚ)) = (2 : ℚ) ^ dl * (cfg.gridSize : ℚ) :=
      effHalf_eq cfg.gridSize dl
    have h1 := (scaled_add_lt (v.project ctr).x num (v.project b.sw).x den hd)
    have h2 := (scaled_sub_gt (v.project ctr).x num (v.project b.ne).x den hd)
    have h3 := (scaled_add_lt (v.project ctr).y num (v.project b.ne).y den hd)
    have h4 := (scaled_sub_gt (v.project ctr).y num (v.project b.sw).y den hd)
    rw [heff] at h1 h2 h3 h4
    simp only [h1, h2, h3, h4]

/-- Claim C5 witness: at the concrete fixture (zoom changed from 10 to
11, so the effective half-size doubles), the theorem's two implications
are discharged on `testClusterTwo`. -/
theorem claim_C5_witness :
    Cluster.isInBounds testConfig testViewZoomed testClusterTwo wideBounds =
      overlapTest (testViewZoomed.project wideBounds.sw)
        (testViewZoomed.project wideBounds.ne)
        (testViewZoomed.project { lat := 0, lng := 0 })
        ((2 : ℚ) ^ (testViewZoomed.zoom - testClusterTwo.zoom) * (testConfig.gridSize : ℚ)) :=
  (claim_C5 testConfig testViewZoomed testClusterTwo wideBounds).2
    { lat := 0, lng := 0 } rfl

/-- Claim C6: the claim describes the intended removal protocol, but the
code is wrong about the method it dispatches to.  Both
`LeafClusterer.removeMarker` and `L.Marker.Clusterer.removeMarker` invoke
`clusters[i].remove(marker)`, yet neither cluster class defines a method
named `remove` — the member-removal method both define is `removeMarker`.
On any state with at least one cluster the scan's first iteration
dereferences an undefined property and throws a TypeError instead of
removing the marker or returning silently. -/
theorem claim_C6 :
    removalCallTarget ∉ clusterMethodNames ∧ "removeMarker" ∈ clusterMethodNames := by
  decide

/-- Claim C8 counterexample: the claim as stated fails.  A cluster whose
single member is removed by `Cluster.removeMarker` ends with an empty
members list while `center_` is still set (neither `removeMarker` nor
`clearMarkers` ever resets `center_`), so "center is unset iff members is
empty" is violated after a `Cluster` operation. -/
theorem claim_C8_counterexample :
    (((freshCluster testView).addMarker { isAdded := false, marker := markerA }).removeMarker
        markerA).1.markers = [] ∧
    (((freshCluster testView).addMarker { isAdded := false, marker := markerA }).removeMarker
        markerA).1.center ≠ none := by
  decide

/-- Claim C8 (amended): only one direction of the invariant holds.  For
every cluster satisfying "center unset implies members empty", each
`Cluster` operation preserves that implication, and `addMarker` always
leaves the center set; the converse direction fails, since
`removeMarker` and `clearMarkers` empty the members list without
resetting the center. -/
theorem claim_C8 (c : Cluster) (r : MarkerRef) (m : Marker)
    (h : c.center = none → c.markers = []) :
    ((c.addMarker r).center ≠ none) ∧
    ((c.addMarker r).center = none → (c.addMarker r).markers = []) ∧
    ((c.removeMarker m).1.center = none → (c.removeMarker m).1.markers = []) ∧
    (c.clearMarkers.center = none → c.clearMarkers.markers = []) := by
  obtain ⟨center, ms, z, bd⟩ := c
  refine ⟨?_, ?_, ?_, ?_⟩
  · cases center <;> simp [Cluster.addMarker]
  · cases center <;> simp [Cluster.addMarker]
  · intro hc
    rcases hrem : removeFirstRef m ms with _ | ms'
    · simp only [Cluster.removeMarker, hrem] at hc ⊢
      exact h hc
    · simp only [Cluster.removeMarker, hrem] at hc ⊢
      have hms : ms = [] := h hc
      subst hms
      simp [removeFirstRef] at hrem
  · intro _
    simp [Cluster.clearMarkers]

/-- Claim C8 witness: the amended preservation facts discharged on the
fresh (empty, centerless) cluster. -/
theorem claim_C8_witness :
    ((freshCluster testView).center = none → (freshCluster testView).markers = []) ∧
    (((freshCluster testView).addMarker { isAdded := false, marker := markerA }).center ≠ none) :=
  ⟨fun _ => rfl,
   (claim_C8 (freshCluster testView) { isAdded := false, marker := markerA } markerA
     (fun _ => rfl)).1⟩

/-- The digit loop does not depend on the fuel, as long as the fuel is at
least the count. -/
theorem digitLoop_congr (n : Nat) : ∀ f1 f2, n ≤ f1 → n ≤ f2 →
    digitLoop f1 n = digitLoop f2 n := by
  induction n using Nat.strong_induction_on with
  | _ n ih =>
    intro f1 f2 h1 h2
    match n, f1, f2 with
    | 0, f1, f2 =>
      cases f1 <;> cases f2 <;> rfl
    | m + 1, g1 + 1, g2 + 1 =>
      have hle : (m + 1) / 10 ≤ m := by omega
      have := ih ((m + 1) / 10) (by omega) g1 g2 (by omega) (by omega)
      simp only [digitLoop, this]

/-- The digit loop unfolds one decimal division at a time, the shape of
the source's `while (dv !== 0)` loop. -/
theorem digitCount_eq_ite (n : Nat) :
    digitCount n = if n = 0 then 0 else digitCount (n / 10) + 1 := by
  match n with
  | 0 => rfl
  | m + 1 =>
    rw [if_neg (by omega)]
    show digitLoop (m + 1) (m + 1) = digitLoop ((m + 1) / 10) ((m + 1) / 10) + 1
    rw [show digitLoop (m + 1) (m + 1) = digitLoop m ((m + 1) / 10) + 1 from rfl]
    rw [digitLoop_congr ((m + 1) / 10) m ((m + 1) / 10) (by omega) (by omega)]

/-- The digit loop of `ClusterMarker_.reset` counts at least one digit
for a positive count. -/
theorem digitCount_pos (n : Nat) (h : 1 ≤ n) : 1 ≤ digitCount n := by
  rw [digitCount_eq_ite, if_neg (by omega)]
  omega

/-- The digit loop of `ClusterMarker_.reset` computes the decimal digit
count of a positive count. -/
theorem digitCount_eq_log (n : Nat) (h : 1 ≤ n) :
    digitCount n = Nat.log 10 n + 1 := by
  induction n using Nat.strong_induction_on with
  | _ n ih =>
    rw [digitCount_eq_ite, if_neg (by omega)]
    rcases Nat.lt_or_ge n 10 with h10 | h10
    · have hd : n / 10 = 0 := Nat.div_eq_of_lt h10
      have hl : Nat.log 10 n = 0 := by
        rw [Nat.log_eq_zero_iff]
        exact Or.inl h10
      rw [hd, hl]
      rfl
    · have hpos : 1 ≤ n / 10 := (Nat.one_le_div_iff (by norm_num)).2 h10
      have hlt : n / 10 < n := Nat.div_lt_self (by omega) (by norm_num)
      rw [ih (n / 10) hlt hpos, Nat.log_div_base]
      have hp : 0 < Nat.log 10 n := Nat.log_pos (by norm_num) h10
      omega

/-- Claim C9: the badge style tier index of `ClusterMarker_.reset` is the
number of decimal digits of the count (`Nat.log 10 n + 1` for positive
`n`: 1 for counts 1–9, 2 for 10–99, and so on), clamped to the number of
configured style tiers, so for every positive count and non-empty styles
array the access `styles[index - 1]` is in range; the badge built or
updated by the aggregate branch of `Cluster.redraw_` (`updateBadge`)
carries exactly this tier index and the member count it was given.  (The
aggregate branch runs only with the cluster's member count, which is at
least 2 there: a count of 1 forces the individual branch, and the source
has no reachable path that redraws an empty cluster, since its only
member-removal entry point throws before removing anything.) -/
theorem claim_C9 (n k : Nat) :
    (styleIndexOfCount n k = min (digitCount n) k) ∧
    (1 ≤ n → digitCount n = Nat.log 10 n + 1) ∧
    (1 ≤ n → 1 ≤ k →
      1 ≤ styleIndexOfCount n k ∧ styleIndexOfCount n k ≤ k ∧
      styleIndexOfCount n k - 1 < k) ∧
    ((updateBadge n k).styleIndex = styleIndexOfCount n k ∧ (updateBadge n k).count = n) := by
  refine ⟨?_, fun h => digitCount_eq_log n h, fun hn hk => ?_, rfl, rfl⟩
  · simp only [styleIndexOfCount]
    split <;> omega
  · have hd : 1 ≤ digitCount n := digitCount_pos n hn
    simp only [styleIndexOfCount]
    split <;> omega

/-- Claim C9 witness: for a member count of 12345678 against the 5
built-in tiers, the tier index is clamped to 5 and the access
`styles[4]` is in range. -/
theorem claim_C9_witness :
    styleIndexOfCount 12345678 5 = 5 ∧ 1 ≤ styleIndexOfCount 12345678 5 ∧
    styleIndexOfCount 12345678 5 - 1 < 5 := by
  have h := (claim_C9 12345678 5).2.2.1 (by norm_num) (by norm_num)
  exact ⟨by decide, h.1, h.2.2⟩

/-- Claim C4: when a redraw actually draws (it is forced or the cluster
is in the viewport), the display mode follows the boundary of
`Cluster.redraw_`.  With exactly one member — regardless of zoom — or at
or above the effective max zoom (`maxZoom_`, or the map's max zoom when
unset), individual mode runs: every member's marker is attached
(`addLayer`), every member record is flagged placed, and an existing
badge is hidden.  With two or more members below the effective max zoom,
aggregate mode runs: the badge is present with displayed count equal to
the member count, every member flagged placed gets a detach
(`removeLayer`) call, and the member list is otherwise untouched.  In
both cases the cluster's zoom stamp becomes the map's current zoom. -/
theorem claim_C4 (cfg : Config) (v : MapView) (c : Cluster) (isForce : Bool)
    (hdraw : isForce = true ∨ Cluster.isInBounds cfg v c v.bounds = true) :
    ((cfg.maxZoom.getD v.maxZoom ≤ v.zoom ∨ c.markers.length = 1) →
      (redrawCluster cfg v c isForce).1.markers =
        c.markers.map (fun r => { r with isAdded := true }) ∧
      (redrawCluster cfg v c isForce).2 =
        c.markers.map (fun r => MapAct.attach r.marker) ∧
      (redrawCluster cfg v c isForce).1.clusterMarker =
        c.clusterMarker.map (fun b => { b with hidden := true })) ∧
    (2 ≤ c.markers.length → v.zoom < cfg.maxZoom.getD v.maxZoom →
      (redrawCluster cfg v c isForce).1.clusterMarker =
        some (updateBadge c.markers.length cfg.numStyles) ∧
      (updateBadge c.markers.length cfg.numStyles).count = c.markers.length ∧
      (redrawCluster cfg v c isForce).1.markers = c.markers ∧
      (redrawCluster cfg v c isForce).2 =
        (c.markers.filter (fun r => r.isAdded)).map (fun r => MapAct.detach r.marker)) ∧
    (redrawCluster cfg v c isForce).1.zoom = v.zoom := by
  have hguard : (!isForce && !(Cluster.isInBounds cfg v c v.bounds)) = false := by
    rcases hdraw with h | h <;> simp [h]
  refine ⟨fun hmode => ?_, fun h2 hz => ?_, ?_⟩
  · have hcond : (v.zoom ≥ cfg.maxZoom.getD v.maxZoom ∨
        Cluster.getTotalMarkers { c with zoom := v.zoom } = 1) := by
      rcases hmode with h | h
      · exact Or.inl h
      · exact Or.inr h
    simp only [redrawCluster, hguard, Bool.false_eq_true, if_false, if_pos hcond]
    refine ⟨?_, ?_, ?_⟩ <;> trivial
  · have hcond : ¬ (v.zoom ≥ cfg.maxZoom.getD v.maxZoom ∨
        Cluster.getTotalMarkers { c with zoom := v.zoom } = 1) := by
      rintro (h | h)
      · omega
      · have : c.markers.length = 1 := h
        omega
    simp only [redrawCluster, hguard, Bool.false_eq_true, if_false, if_neg hcond]
    refine ⟨?_, ?_, ?_, ?_⟩ <;> trivial
  · by_cases hcond : (v.zoom ≥ cfg.maxZoom.getD v.maxZoom ∨
        Cluster.getTotalMarkers { c with zoom := v.zoom } = 1)
    · simp only [redrawCluster, hguard, Bool.false_eq_true, if_false, if_pos hcond]
    · simp only [redrawCluster, hguard, Bool.false_eq_true, if_false, if_neg hcond]

/-- Claim C4 witness: the concrete two-member cluster at zoom 10 (below
max zoom 18) draws as a badge counting 2, detaching its placed member. -/
theorem claim_C4_witness :
    2 ≤ testClusterTwo.markers.length ∧
    testView.zoom < testConfig.maxZoom.getD testView.maxZoom ∧
    (redrawCluster testConfig testView testClusterTwo false).1.clusterMarker =
      some (updateBadge testClusterTwo.markers.length testConfig.numStyles) ∧
    (redrawCluster testConfig testView testClusterTwo false).2 =
      [MapAct.detach markerB] := by
  have h := (claim_C4 testConfig testView testClusterTwo false
    (Or.inr (by decide))).2.1 (by decide) (by decide)
  exact ⟨by decide, by decide, h.1, by rw [h.2.2.2]; decide⟩

/-- A redraw never changes which markers a cluster holds (only their
placed flags). -/
theorem redrawCluster_markers_map (cfg : Config) (v : MapView) (c : Cluster)
    (isForce : Bool) :
    ((redrawCluster cfg v c isForce).1).markers.map (fun r => r.marker) =
      c.markers.map (fun r => r.marker) := by
  rw [redrawCluster]
  split
  · rfl
  · dsimp only
    split
    · simp only [List.map_map]
      rfl
    · rfl

/-- A redraw never changes a cluster's center. -/
theorem redrawCluster_center (cfg : Config) (v : MapView) (c : Cluster)
    (isForce : Bool) :
    ((redrawCluster cfg v c isForce).1).center = c.center := by
  rw [redrawCluster]
  split
  · rfl
  · dsimp only
    split <;> rfl

/-- A redraw never changes how often a marker occurs in a cluster. -/
theorem redrawCluster_countMarker (cfg : Config) (v : MapView) (c : Cluster)
    (isForce : Bool) (m : Marker) :
    ((redrawCluster cfg v c isForce).1).countMarker m = c.countMarker m := by
  rw [redrawCluster]
  split
  · rfl
  · dsimp only
    split
    · simp only [Cluster.countMarker, List.countP_map]
      rfl
    · rfl

/-- The reverse scan reports a miss exactly when no candidate passes the
grid-square test. -/
theorem insertWith_eq_none_iff (v : MapView) (g : Int) (pos : Pt)
    (f : Cluster → Cluster) (cs : List Cluster) :
    insertWith v g pos f cs = none ↔ ∀ c ∈ cs, clusterFits v g pos c = false := by
  induction cs with
  | nil => simp [insertWith]
  | cons c cs ih =>
    cases htail : insertWith v g pos f cs with
    | some cs0 =>
      have hex : ¬ (∀ x ∈ cs, clusterFits v g pos x = false) := by
        rw [← ih, htail]
        simp
      constructor
      · intro habs
        rw [insertWith, htail] at habs
        simp at habs
      · intro hall
        exact absurd (fun x hx => hall x (List.mem_cons_of_mem c hx)) hex
    | none =>
      rw [insertWith, htail]
      have hall := ih.mp htail
      by_cases hc : clusterFits v g pos c = true
      · simp only [hc, if_true]
        constructor
        · intro habs
          simp at habs
        · intro h
          exact absurd (h c (List.mem_cons_self c cs)) (by simp [hc])
      · simp only [Bool.not_eq_true] at hc
        simp only [hc, Bool.false_eq_true, if_false, true_iff]
        intro x hx
        rcases List.mem_cons.mp hx with rfl | hx'
        · exact hc
        · exact hall x hx'

/-- The reverse scan's hit is the last-inserted fitting candidate: there
is an index `j` that fits, every later index fails the test, and the
result replaces position `j` by `f` of it, leaving the rest of the list
unchanged. -/
theorem insertWith_eq_some (v : MapView) (g : Int) (pos : Pt)
    (f : Cluster → Cluster) (cs cs' : List Cluster)
    (h : insertWith v g pos f cs = some cs') :
    ∃ j, ∃ hj : j < cs.length,
      clusterFits v g pos (cs.get ⟨j, hj⟩) = true ∧
      (∀ i, ∀ hi : i < cs.length, j < i → clusterFits v g pos (cs.get ⟨i, hi⟩) = false) ∧
      cs' = cs.set j (f (cs.get ⟨j, hj⟩)) := by
  induction cs generalizing cs' with
  | nil => simp [insertWith] at h
  | cons c cs ih =>
    rw [insertWith] at h
    cases htail : insertWith v g pos f cs with
    | some cs0 =>
      rw [htail] at h
      simp only [Option.some.injEq] at h
      obtain ⟨j, hj, hfit, hmax, heq⟩ := ih cs0 htail
      refine ⟨j + 1, Nat.succ_lt_succ hj, hfit, ?_, ?_⟩
      · intro i hi hlt
        obtain ⟨q, rfl⟩ : ∃ q, i = q + 1 := ⟨i - 1, by omega⟩
        exact hmax q (Nat.lt_of_succ_lt_succ hi) (Nat.lt_of_succ_lt_succ hlt)
      · rw [← h, heq]
        rfl
    | none =>
      rw [htail] at h
      have hall := (insertWith_eq_none_iff v g pos f cs).mp htail
      by_cases hc : clusterFits v g pos c = true
      · rw [if_pos hc] at h
        simp only [Option.some.injEq] at h
        refine ⟨0, Nat.succ_pos _, hc, ?_, ?_⟩
        · intro i hi hlt
          obtain ⟨q, rfl⟩ : ∃ q, i = q + 1 := ⟨i - 1, by omega⟩
          exact hall _ (List.get_mem cs q (Nat.lt_of_succ_lt_succ hi))
        · rw [← h]
          rfl
      · rw [if_neg hc] at h
        cases h

/-- The scan's hit appends exactly the new record's marker to the
fitting cluster's member markers (modulo placed-flag bookkeeping of the
optional redraw). -/
theorem addStep_markers_map (cfg : Config) (v : MapView) (r : MarkerRef)
    (isNodraw : Bool) (c : Cluster) :
    (addStep cfg v r isNodraw c).markers.map (fun x => x.marker) =
      c.markers.map (fun x => x.marker) ++ [r.marker] := by
  rw [addStep]
  split
  · simp [Cluster.addMarker]
  · rw [redrawCluster_markers_map]
    simp [Cluster.addMarker]

/-- The scan's hit fixes the center on the first member and otherwise
keeps it. -/
theorem addStep_center (cfg : Config) (v : MapView) (r : MarkerRef)
    (isNodraw : Bool) (c : Cluster) :
    (addStep cfg v r isNodraw c).center =
      (match c.center with
        | none => some r.marker.pos
        | some p => some p) := by
  rw [addStep]
  split
  · rfl
  · rw [redrawCluster_center]
    rfl

/-- The scan's hit raises the occurrence count of the new record's
marker by one and keeps every other count. -/
theorem addStep_countMarker (cfg : Config) (v : MapView) (r : MarkerRef)
    (isNodraw : Bool) (c : Cluster) (m : Marker) :
    (addStep cfg v r isNodraw c).countMarker m =
      c.countMarker m + (if r.marker = m then 1 else 0) := by
  have hbase : (c.addMarker r).countMarker m =
      c.countMarker m + (if r.marker = m then 1 else 0) := by
    simp only [Cluster.countMarker, Cluster.addMarker, List.countP_append,
      List.countP_cons, List.countP_nil]
    by_cases h : r.marker = m <;> simp [h]
  rw [addStep]
  split
  · exact hbase
  · rw [redrawCluster_countMarker]
    exact hbase

/-- Claim C2: for an in-viewport marker, `LeafClusterer.addMarker` with
the default candidate list scans `clusters_` in reverse insertion order
under the axis-aligned square test `clusterFits` and appends the record
to the hit — the fitting cluster with the highest index, every cluster
inserted after it failing the test — leaving all other clusters and the
pending list untouched; when no cluster fits, exactly one new cluster is
appended, holding only that marker, centered on it.  With a caller-
supplied candidate list distinct from `clusters_` (`addToCandidates`),
a miss likewise appends the one new cluster to the candidate list, and
`applyReset` places the candidate list at the tail of the global list
(the source pushes the new cluster onto both arrays). -/
theorem claim_C2 (cfg : Config) (v : MapView) (st : ClState) (m : Marker)
    (isNodraw isAdded : Bool) (hin : v.bounds.contains m.pos = true) :
    ((∀ c ∈ st.clusters, clusterFits v cfg.gridSize (v.project m.pos) c = false) →
      ∃ c, (LeafClusterer.addMarker cfg v st m isNodraw isAdded false).clusters =
          st.clusters ++ [c] ∧
        c.markers.map (fun r => r.marker) = [m] ∧
        c.center = some m.pos ∧
        (LeafClusterer.addMarker cfg v st m isNodraw isAdded false).leftMarkers =
          st.leftMarkers) ∧
    ((∃ c ∈ st.clusters, clusterFits v cfg.gridSize (v.project m.pos) c = true) →
      ∃ j, ∃ hj : j < st.clusters.length,
        clusterFits v cfg.gridSize (v.project m.pos) (st.clusters.get ⟨j, hj⟩) = true ∧
        (∀ i, ∀ hi : i < st.clusters.length, j < i →
          clusterFits v cfg.gridSize (v.project m.pos) (st.clusters.get ⟨i, hi⟩) = false) ∧
        ∃ c', (LeafClusterer.addMarker cfg v st m isNodraw isAdded false).clusters =
            st.clusters.set j c' ∧
          c'.markers.map (fun r => r.marker) =
            (st.clusters.get ⟨j, hj⟩).markers.map (fun r => r.marker) ++ [m] ∧
          (LeafClusterer.addMarker cfg v st m isNodraw isAdded false).leftMarkers =
            st.leftMarkers) ∧
    (∀ r cands, (∀ c ∈ cands,
        clusterFits v cfg.gridSize (v.project r.marker.pos) c = false) →
      addToCandidates cfg v r cands = cands ++ [(freshCluster v).addMarker r]) := by
  have hguard : (!(false : Bool) && !(v.bounds.contains m.pos)) = false := by
    rw [hin]
    rfl
  refine ⟨fun hall => ?_, fun hex => ?_, fun r cands hall => ?_⟩
  · have hnone := (insertWith_eq_none_iff v cfg.gridSize (v.project m.pos)
      (addStep cfg v { isAdded := isAdded, marker := m } isNodraw) st.clusters).mpr hall
    refine ⟨addStep cfg v { isAdded := isAdded, marker := m } isNodraw (freshCluster v),
      ?_, ?_, ?_, ?_⟩
    · show (LeafClusterer.addMarker cfg v st m isNodraw isAdded false).clusters = _
      simp only [LeafClusterer.addMarker, hguard, Bool.false_eq_true, if_false, hnone]
    · rw [addStep_markers_map]
      rfl
    · rw [addStep_center]
      rfl
    · show (LeafClusterer.addMarker cfg v st m isNodraw isAdded false).leftMarkers = _
      simp only [LeafClusterer.addMarker, hguard, Bool.false_eq_true, if_false, hnone]
  · cases hins : insertWith v cfg.gridSize (v.project m.pos)
      (addStep cfg v { isAdded := isAdded, marker := m } isNodraw) st.clusters with
    | none =>
      obtain ⟨c, hc, hfit⟩ := hex
      have := (insertWith_eq_none_iff v cfg.gridSize (v.project m.pos) _ st.clusters).mp hins c hc
      rw [hfit] at this
      cases this
    | some cs' =>
      obtain ⟨j, hj, hfit, hmax, heq⟩ :=
        insertWith_eq_some v cfg.gridSize (v.project m.pos) _ st.clusters cs' hins
      refine ⟨j, hj, hfit, hmax,
        addStep cfg v { isAdded := isAdded, marker := m } isNodraw (st.clusters.get ⟨j, hj⟩),
        ?_, ?_, ?_⟩
      · show (LeafClusterer.addMarker cfg v st m isNodraw isAdded false).clusters = _
        simp only [LeafClusterer.addMarker, hguard, Bool.false_eq_true, if_false, hins]
        exact heq
      · rw [addStep_markers_map]
      · show (LeafClusterer.addMarker cfg v st m isNodraw isAdded false).leftMarkers = _
        simp only [LeafClusterer.addMarker, hguard, Bool.false_eq_true, if_false, hins]
  · have hnone := (insertWith_eq_none_iff v cfg.gridSize (v.project r.marker.pos)
      (fun c => c.addMarker r) cands).mpr hall
    simp only [addToCandidates, hnone]

/-- Claim C2 witness: adding the first in-viewport marker to the empty
clusterer creates exactly one singleton cluster centered on it. -/
theorem claim_C2_witness :
    ∃ c, (LeafClusterer.addMarker testConfig testView emptyState markerA false false
        false).clusters = emptyState.clusters ++ [c] ∧
      c.markers.map (fun r => r.marker) = [markerA] ∧
      c.center = some markerA.pos ∧
      (LeafClusterer.addMarker testConfig testView emptyState markerA false false
        false).leftMarkers = emptyState.leftMarkers :=
  (claim_C2 testConfig testView emptyState markerA false false (by decide)).1
    (fun c hc => absurd hc (by simp [emptyState]))

/-- The identity splice passes over an entry that is not the dissolved
cluster. -/
theorem removeFirstCluster_cons_ne (c d : Cluster) (ds : List Cluster) (h : d ≠ c) :
    removeFirstCluster c (d :: ds) = d :: removeFirstCluster c ds := by
  rw [removeFirstCluster, if_neg h]

/-- The identity splice drops a matching head. -/
theorem removeFirstCluster_cons_self (c : Cluster) (ds : List Cluster) :
    removeFirstCluster c (c :: ds) = ds := by
  rw [removeFirstCluster, if_pos rfl]

/-- The dissolution loop leaves a cluster alone that none of the
snapshot's dissolved entries equals. -/
theorem resetLoop_skip (v : MapView) (snap : List Cluster) :
    ∀ (c : Cluster) (cs : List Cluster) (tmp : List MarkerRef),
    (∀ d ∈ snap, d.zoom ≠ v.zoom → d ≠ c) →
    resetLoop v snap (c :: cs, tmp) =
      (c :: (resetLoop v snap (cs, tmp)).1, (resetLoop v snap (cs, tmp)).2) := by
  induction snap with
  | nil => intro c cs tmp h; rfl
  | cons d snap ih =>
    intro c cs tmp h
    by_cases hz : d.zoom = v.zoom
    · rw [resetLoop, if_pos hz, resetLoop, if_pos hz]
      exact ih c cs tmp (fun x hx => h x (List.mem_cons_of_mem d hx))
    · have hdc : d ≠ c := h d (List.mem_cons_self d snap) hz
      rw [resetLoop, if_neg hz, removeFirstCluster_cons_ne d c cs (Ne.symm hdc),
        resetLoop, if_neg hz]
      exact ih c _ _ (fun x hx => h x (List.mem_cons_of_mem d hx))

/-- The dissolution loop of `resetViewport`, run over the snapshot of
clusters satisfying `q` (in the source: the in-viewport clusters),
removes from the global list exactly the snapshot clusters whose
remembered zoom differs from the current zoom and collects their member
records in order, re-tagged as not placed. -/
theorem resetLoop_filter (v : MapView) (q : Cluster → Bool) (cs : List Cluster) :
    ∀ tmp : List MarkerRef,
    resetLoop v (cs.filter q) (cs, tmp) =
      (cs.filter (fun c => !(q c && !(decide (c.zoom = v.zoom)))),
       tmp ++ (cs.filter (fun c => q c && !(decide (c.zoom = v.zoom)))).bind
         (fun c => c.markers.map (fun r => { isAdded := false, marker := r.marker }))) := by
  induction cs with
  | nil => intro tmp; simp [resetLoop]
  | cons c cs ih =>
    intro tmp
    by_cases hq : q c = true
    · by_cases hz : c.zoom = v.zoom
      · have hside : ∀ d ∈ cs.filter q, d.zoom ≠ v.zoom → d ≠ c := by
          intro d hd hdz hdc
          rw [hdc] at hdz
          exact hdz hz
        rw [List.filter_cons_of_pos hq, resetLoop, if_pos hz,
          resetLoop_skip v (cs.filter q) c cs tmp hside, ih tmp]
        simp [List.filter_cons, hq, hz]
      · rw [List.filter_cons_of_pos hq, resetLoop, if_neg hz,
          removeFirstCluster_cons_self, ih]
        simp [List.filter_cons, hq, hz, List.append_assoc]
    · have hq' : q c = false := by simpa using hq
      have hside : ∀ d ∈ cs.filter q, d.zoom ≠ v.zoom → d ≠ c := by
        intro d hd hdz hdc
        rw [hdc] at hd
        have := List.of_mem_filter hd
        rw [hq'] at this
        cases this
      rw [List.filter_cons_of_neg (by simp [hq']),
        resetLoop_skip v (cs.filter q) c cs tmp hside, ih tmp]
      simp [List.filter_cons, hq']

/-- The downward loop of `reAddMarkers_` is the left fold over the
collected records in reverse order. -/
theorem reAddLoop_eq_foldl_reverse (cfg : Config) (v : MapView) (ms : List MarkerRef)
    (cands : List Cluster) :
    reAddLoop cfg v ms cands =
      ms.reverse.foldl (fun acc r => addToCandidates cfg v r acc) cands := by
  induction ms generalizing cands with
  | nil => rfl
  | cons r rest ih =>
    rw [reAddLoop, ih, List.reverse_cons, List.foldl_append]
    rfl

/-- Claim C3: the `resetViewport` protocol.  Every in-viewport cluster
with a stale zoom stamp is dissolved — removed from the global list with
its member records collected in order, each re-tagged not placed — and
the collected records are re-added in reverse collection order
(`reAddLoop` is the fold over the reversed list) through
`addToCandidates`, which bypasses the viewport check, suppresses redraw,
and starts from a fresh empty candidate list, so the pass matches only
clusters it creates itself; the surviving clusters sit in front of the
pass's clusters in the global list.  Afterwards the pending markers are
re-attempted (`addLeftMarkers`, draining the pending list to empty) and
every cluster in the viewport is force-redrawn (`redrawAll`). -/
theorem claim_C3 (cfg : Config) (v : MapView) (st : ClState) :
    (∀ r ∈ (st.clusters.filter (fun c =>
        Cluster.isInBounds cfg v c v.bounds && !(decide (c.zoom = v.zoom)))).bind
          (fun c => c.markers.map
            (fun x => ({ isAdded := false, marker := x.marker } : MarkerRef))),
      r.isAdded = false) ∧
    (∀ ms : List MarkerRef, ∀ cands : List Cluster,
      reAddLoop cfg v ms cands =
        ms.reverse.foldl (fun acc r => addToCandidates cfg v r acc) cands) ∧
    applyReset cfg v st =
      redrawAll cfg v (addLeftMarkers cfg v
        { clusters :=
            st.clusters.filter (fun c =>
              !(Cluster.isInBounds cfg v c v.bounds && !(decide (c.zoom = v.zoom)))) ++
            reAddLoop cfg v
              ((st.clusters.filter (fun c =>
                Cluster.isInBounds cfg v c v.bounds && !(decide (c.zoom = v.zoom)))).bind
                (fun c => c.markers.map
                  (fun x => ({ isAdded := false, marker := x.marker } : MarkerRef))))
              [],
          leftMarkers := st.leftMarkers }) ∧
    (applyReset cfg v st).leftMarkers = [] := by
  refine ⟨?_, fun ms cands => reAddLoop_eq_foldl_reverse cfg v ms cands, ?_, rfl⟩
  · intro r hr
    simp only [List.mem_bind, List.mem_map] at hr
    obtain ⟨c, _, x, _, rfl⟩ := hr
    rfl
  · have hfilter := resetLoop_filter v
      (fun c => Cluster.isInBounds cfg v c v.bounds) st.clusters []
    simp only [applyReset, getClustersInViewport, hfilter, List.nil_append]

/-- Claim C3 witness: at the concrete state holding one two-member
cluster stamped zoom 10 while the map is at zoom 11, the collected
records are tagged unplaced and the pending list is drained. -/
theorem claim_C3_witness :
    ({ isAdded := false, marker := markerA } : MarkerRef).isAdded = false ∧
    (applyReset testConfig testViewZoomed
      { clusters := [testClusterTwo], leftMarkers := [] }).leftMarkers = [] :=
  ⟨(claim_C3 testConfig testViewZoomed
      { clusters := [testClusterTwo], leftMarkers := [] }).1
      { isAdded := false, marker := markerA } (by decide),
   (claim_C3 testConfig testViewZoomed
      { clusters := [testClusterTwo], leftMarkers := [] }).2.2.2⟩

/-- Occurrence counts across an empty cluster list. -/
theorem clustersCount_nil (m : Marker) : clustersCount [] m = 0 := rfl

/-- Occurrence counts across a cluster list distribute over the head. -/
theorem clustersCount_cons (c : Cluster) (cls : List Cluster) (m : Marker) :
    clustersCount (c :: cls) m = c.countMarker m + clustersCount cls m := by
  simp [clustersCount]

/-- Occurrence counts across a cluster list distribute over
concatenation. -/
theorem clustersCount_append (cls1 cls2 : List Cluster) (m : Marker) :
    clustersCount (cls1 ++ cls2) m = clustersCount cls1 m + clustersCount cls2 m := by
  simp [clustersCount]

/-- `Cluster.addMarker` raises the occurrence count of the added record's
marker by one and keeps every other count. -/
theorem Cluster_addMarker_countMarker (c : Cluster) (r : MarkerRef) (m : Marker) :
    (c.addMarker r).countMarker m = c.countMarker m + (if r.marker = m then 1 else 0) := by
  simp only [Cluster.countMarker, Cluster.addMarker, List.countP_append,
    List.countP_cons, List.countP_nil]
  by_cases h : r.marker = m <;> simp [h]

/-- A hit of the reverse scan changes the total occurrence count across
the candidate list by exactly the delta of the applied update. -/
theorem insertWith_clustersCount (v : MapView) (g : Int) (pos : Pt)
    (f : Cluster → Cluster) (cs cs' : List Cluster) (m : Marker) (d : Nat)
    (hf : ∀ c, (f c).countMarker m = c.countMarker m + d)
    (h : insertWith v g pos f cs = some cs') :
    clustersCount cs' m = clustersCount cs m + d := by
  induction cs generalizing cs' with
  | nil => cases h
  | cons c cs ih =>
    rw [insertWith] at h
    cases htail : insertWith v g pos f cs with
    | some cs0 =>
      rw [htail] at h
      simp only [Option.some.injEq] at h
      rw [← h, clustersCount_cons, clustersCount_cons, ih cs0 htail]
      omega
    | none =>
      rw [htail] at h
      by_cases hc : clusterFits v g pos c = true
      · rw [if_pos hc] at h
        simp only [Option.some.injEq] at h
        rw [← h, clustersCount_cons, clustersCount_cons, hf c]
        omega
      · rw [if_neg hc] at h
        cases h

/-- When the viewport check defers a marker, `addMarker` only appends it
to the pending list. -/
theorem addMarker_pending_parts (cfg : Config) (v : MapView) (st : ClState)
    (m' : Marker) (nd ia : Bool) (h : v.bounds.contains m'.pos = false) :
    (LeafClusterer.addMarker cfg v st m' nd ia false).clusters = st.clusters ∧
    (LeafClusterer.addMarker cfg v st m' nd ia false).leftMarkers =
      st.leftMarkers ++ [m'] := by
  rw [LeafClusterer.addMarker]
  simp [h]

/-- When the marker is clustered (viewport check passed or bypassed),
`addMarker` keeps the pending list and raises the occurrence count of the
added marker across the clusters by one. -/
theorem addMarker_clustered_parts (cfg : Config) (v : MapView) (st : ClState)
    (m' : Marker) (nd ia nc : Bool) (m : Marker)
    (h : (!nc && !(v.bounds.contains m'.pos)) = false) :
    (LeafClusterer.addMarker cfg v st m' nd ia nc).leftMarkers = st.leftMarkers ∧
    clustersCount (LeafClusterer.addMarker cfg v st m' nd ia nc).clusters m =
      clustersCount st.clusters m + (if m' = m then 1 else 0) := by
  rw [LeafClusterer.addMarker]
  simp only [h, Bool.false_eq_true, if_false]
  cases hins : insertWith v cfg.gridSize (v.project m'.pos)
      (addStep cfg v { isAdded := ia, marker := m' } nd) st.clusters with
  | some cls =>
    simp only [hins]
    refine ⟨?_, ?_⟩
    · trivial
    · exact insertWith_clustersCount v cfg.gridSize (v.project m'.pos) _ st.clusters cls m _
        (fun c => addStep_countMarker cfg v { isAdded := ia, marker := m' } nd c m) hins
  | none =>
    simp only [hins]
    refine ⟨?_, ?_⟩
    · trivial
    · rw [clustersCount_append, clustersCount_cons, clustersCount_nil,
        addStep_countMarker]
      by_cases hmm : m' = m <;>
        simp [hmm, freshCluster, Cluster.countMarker]

/-- `LeafClusterer.addMarker` raises the engine-wide occurrence count of
the added marker by one and keeps every other count, whichever container
receives it. -/
theorem totalCount_addMarker (cfg : Config) (v : MapView) (st : ClState)
    (m' : Marker) (nd ia nc : Bool) (m : Marker) :
    totalCount (LeafClusterer.addMarker cfg v st m' nd ia nc) m =
      totalCount st m + (if m' = m then 1 else 0) := by
  by_cases hg : (!nc && !(v.bounds.contains m'.pos)) = true
  · have hnc : nc = false := by
      cases nc
      · rfl
      · simp at hg
    have hcont : v.bounds.contains m'.pos = false := by
      cases hcm : v.bounds.contains m'.pos
      · rfl
      · rw [hnc, hcm] at hg
        simp at hg
    subst hnc
    obtain ⟨h1, h2⟩ := addMarker_pending_parts cfg v st m' nd ia hcont
    rw [totalCount, totalCount, h1, h2, List.count_append]
    have : List.count m [m'] = if m' = m then 1 else 0 := by
      by_cases hmm : m' = m <;> simp [List.count_cons, hmm]
    rw [this]
    omega
  · have h : (!nc && !(v.bounds.contains m'.pos)) = false := by
      simpa using hg
    obtain ⟨h1, h2⟩ := addMarker_clustered_parts cfg v st m' nd ia nc m h
    rw [totalCount, totalCount, h1, h2]
    omega

/-- Removing the first record of a marker accounts for exactly one
occurrence of that marker and none of any other. -/
theorem removeFirstRef_countRefs (m' : Marker) (ms ms' : List MarkerRef)
    (h : removeFirstRef m' ms = some ms') (m : Marker) :
    countRefs ms m = countRefs ms' m + (if m' = m then 1 else 0) := by
  induction ms generalizing ms' with
  | nil => cases h
  | cons r rs ih =>
    rw [removeFirstRef] at h
    by_cases hr : r.marker = m'
    · rw [if_pos hr] at h
      simp only [Option.some.injEq] at h
      rw [← h]
      simp only [countRefs, List.countP_cons]
      rw [← hr]
      by_cases hmm : r.marker = m <;> simp [hmm]
    · rw [if_neg hr] at h
      cases htail : removeFirstRef m' rs with
      | none =>
        rw [htail] at h
        cases h
      | some rs0 =>
        rw [htail] at h
        simp only [Option.map] at h
        simp only [Option.some.injEq] at h
        rw [← h]
        have hih := ih rs0 htail
        simp only [countRefs, List.countP_cons] at hih ⊢
        omega

/-- A cluster's occurrence count is the occurrence count of its member
records. -/
theorem countMarker_eq_countRefs (c : Cluster) (m : Marker) :
    c.countMarker m = countRefs c.markers m := rfl

/-- The removal scan never touches occurrences of other markers. -/
theorem removeScan_clustersCount_ne (cfg : Config) (v : MapView) (m' : Marker)
    (cls : List Cluster) (m : Marker) (hne : m ≠ m') :
    clustersCount (removeScan cfg v m' cls) m = clustersCount cls m := by
  induction cls with
  | nil => rfl
  | cons c cs ih =>
    rw [removeScan]
    cases hrem : removeFirstRef m' c.markers with
    | some ms =>
      have hc : Cluster.removeMarker c m' = ({ c with markers := ms }, true) := by
        rw [Cluster.removeMarker, hrem]
      rw [hc]
      rw [clustersCount_cons, clustersCount_cons, redrawCluster_countMarker]
      have hcount := removeFirstRef_countRefs m' c.markers ms hrem m
      rw [if_neg (fun hh => hne hh.symm)] at hcount
      simp only [countMarker_eq_countRefs] at hcount ⊢
      omega
    | none =>
      have hc : Cluster.removeMarker c m' = (c, false) := by
        rw [Cluster.removeMarker, hrem]
      rw [hc, clustersCount_cons, clustersCount_cons, ih]

/-- The removal scan never raises any occurrence count. -/
theorem removeScan_clustersCount_le (cfg : Config) (v : MapView) (m' : Marker)
    (cls : List Cluster) (m : Marker) :
    clustersCount (removeScan cfg v m' cls) m ≤ clustersCount cls m := by
  induction cls with
  | nil => exact Nat.le_refl _
  | cons c cs ih =>
    rw [removeScan]
    cases hrem : removeFirstRef m' c.markers with
    | some ms =>
      have hc : Cluster.removeMarker c m' = ({ c with markers := ms }, true) := by
        rw [Cluster.removeMarker, hrem]
      rw [hc]
      rw [clustersCount_cons, clustersCount_cons, redrawCluster_countMarker]
      have hcount := removeFirstRef_countRefs m' c.markers ms hrem m
      simp only [countMarker_eq_countRefs] at hcount ⊢
      omega
    | none =>
      have hc : Cluster.removeMarker c m' = (c, false) := by
        rw [Cluster.removeMarker, hrem]
      rw [hc, clustersCount_cons, clustersCount_cons]
      omega

/-- `LeafClusterer.removeMarker` keeps the pending list and lowers no
count below zero: other markers' counts are untouched, the removed
marker's count never grows. -/
theorem totalCount_removeMarker_ne (cfg : Config) (v : MapView) (st : ClState)
    (m' m : Marker) (hne : m ≠ m') :
    totalCount (LeafClusterer.removeMarker cfg v st m') m = totalCount st m := by
  rw [totalCount, totalCount, LeafClusterer.removeMarker]
  rw [removeScan_clustersCount_ne cfg v m' st.clusters m hne]

/-- `LeafClusterer.removeMarker` never raises the engine-wide occurrence
count of any marker. -/
theorem totalCount_removeMarker_le (cfg : Config) (v : MapView) (st : ClState)
    (m' m : Marker) :
    totalCount (LeafClusterer.removeMarker cfg v st m') m ≤ totalCount st m := by
  rw [totalCount, totalCount, LeafClusterer.removeMarker]
  show clustersCount (removeScan cfg v m' st.clusters) m + List.count m st.leftMarkers ≤
    clustersCount st.clusters m + List.count m st.leftMarkers
  have := removeScan_clustersCount_le cfg v m' st.clusters m
  omega

/-- A mapped redraw pass keeps every occurrence count. -/
theorem clustersCount_redrawAll (cfg : Config) (v : MapView) (st : ClState)
    (m : Marker) :
    clustersCount (redrawAll cfg v st).clusters m = clustersCount st.clusters m := by
  rw [redrawAll]
  show clustersCount (st.clusters.map _) m = _
  induction st.clusters with
  | nil => rfl
  | cons c cs ih =>
    rw [List.map_cons, clustersCount_cons, clustersCount_cons, ih]
    split
    · rw [redrawCluster_countMarker]
    · rfl

/-- A mapped redraw pass keeps the engine-wide counts and the pending
list. -/
theorem totalCount_redrawAll (cfg : Config) (v : MapView) (st : ClState)
    (m : Marker) :
    totalCount (redrawAll cfg v st) m = totalCount st m := by
  rw [totalCount, totalCount, clustersCount_redrawAll]
  rfl

/-- Feeding a record into the candidate list raises its marker's count by
one and keeps every other count. -/
theorem addToCandidates_clustersCount (cfg : Config) (v : MapView) (r : MarkerRef)
    (cands : List Cluster) (m : Marker) :
    clustersCount (addToCandidates cfg v r cands) m =
      clustersCount cands m + (if r.marker = m then 1 else 0) := by
  rw [addToCandidates]
  cases hins : insertWith v cfg.gridSize (v.project r.marker.pos)
      (fun c => c.addMarker r) cands with
  | some cands' =>
    simp only [hins]
    exact insertWith_clustersCount v cfg.gridSize (v.project r.marker.pos) _ cands cands' m _
      (fun c => Cluster_addMarker_countMarker c r m) hins
  | none =>
    simp only [hins]
    rw [clustersCount_append, clustersCount_cons, clustersCount_nil,
      Cluster_addMarker_countMarker]
    by_cases hmm : r.marker = m <;> simp [hmm, freshCluster, Cluster.countMarker]

/-- The re-clustering pass moves exactly the occurrence counts of the
collected records into the candidate list. -/
theorem reAddLoop_clustersCount (cfg : Config) (v : MapView) (ms : List MarkerRef)
    (cands : List Cluster) (m : Marker) :
    clustersCount (reAddLoop cfg v ms cands) m =
      clustersCount cands m + countRefs ms m := by
  induction ms with
  | nil => rfl
  | cons r rest ih =>
    rw [reAddLoop, addToCandidates_clustersCount, ih]
    simp only [countRefs, List.countP_cons]
    by_cases hmm : r.marker = m <;> simp [hmm] <;> omega

/-- Collecting the member records of a cluster list (re-tagged unplaced)
preserves the occurrence counts. -/
theorem countRefs_collect (cls : List Cluster) (m : Marker) :
    countRefs (cls.bind (fun c => c.markers.map
        (fun x => ({ isAdded := false, marker := x.marker } : MarkerRef)))) m =
      clustersCount cls m := by
  induction cls with
  | nil => rfl
  | cons c cs ih =>
    rw [show (c :: cs).bind (fun c => c.markers.map
        (fun x => ({ isAdded := false, marker := x.marker } : MarkerRef))) =
      c.markers.map (fun x => ({ isAdded := false, marker := x.marker } : MarkerRef)) ++
        cs.bind (fun c => c.markers.map
          (fun x => ({ isAdded := false, marker := x.marker } : MarkerRef))) from rfl]
    rw [clustersCount_cons]
    simp only [countRefs, List.countP_append] at ih ⊢
    rw [ih, List.countP_map]
    rfl

/-- Splitting a cluster list by a predicate splits its occurrence
counts. -/
theorem clustersCount_filter_split (p : Cluster → Bool) (cls : List Cluster)
    (m : Marker) :
    clustersCount (cls.filter (fun c => !(p c))) m + clustersCount (cls.filter p) m =
      clustersCount cls m := by
  induction cls with
  | nil => rfl
  | cons c cs ih =>
    by_cases hp : p c = true
    · simp only [List.filter_cons, hp, Bool.not_true, Bool.false_eq_true, if_false,
        if_true, clustersCount_cons]
      omega
    · have hp' : p c = false := by simpa using hp
      simp only [List.filter_cons, hp', Bool.not_false, Bool.false_eq_true, if_false,
        if_true, clustersCount_cons]
      omega

/-- The pending re-add of `addLeftMarkers_` moves every pending marker's
occurrence into the clusters and empties the pending list, preserving the
engine-wide counts. -/
theorem foldl_addLeft_clustersCount (cfg : Config) (v : MapView)
    (ls : List Marker) :
    ∀ (s : ClState) (m : Marker),
    clustersCount ((ls.foldl
      (fun s lm => LeafClusterer.addMarker cfg v s lm true false true) s)).clusters m =
      clustersCount s.clusters m + ls.count m := by
  induction ls with
  | nil => intro s m; simp
  | cons lm ls ih =>
    intro s m
    rw [List.foldl_cons, ih]
    obtain ⟨_, h2⟩ := addMarker_clustered_parts cfg v s lm true false true m rfl
    rw [h2, List.count_cons]
    by_cases hmm : lm = m <;> simp [hmm] <;> omega

/-- `addLeftMarkers` preserves the engine-wide occurrence counts. -/
theorem totalCount_addLeftMarkers (cfg : Config) (v : MapView) (st : ClState)
    (m : Marker) :
    totalCount (addLeftMarkers cfg v st) m = totalCount st m := by
  rw [addLeftMarkers, totalCount, totalCount]
  show clustersCount ((st.leftMarkers.foldl
      (fun s lm => LeafClusterer.addMarker cfg v s lm true false true) st)).clusters m +
      List.count m ([] : List Marker) = _
  rw [foldl_addLeft_clustersCount]
  simp

/-- The filter-based characterization of `resetViewport` (shared by the
protocol claim and the counting arguments): dissolution by filters,
re-clustering of the collected records, pending re-add, viewport
redraw. -/
theorem applyReset_eq (cfg : Config) (v : MapView) (st : ClState) :
    applyReset cfg v st =
      redrawAll cfg v (addLeftMarkers cfg v
        { clusters :=
            st.clusters.filter (fun c =>
              !(Cluster.isInBounds cfg v c v.bounds && !(decide (c.zoom = v.zoom)))) ++
            reAddLoop cfg v
              ((st.clusters.filter (fun c =>
                Cluster.isInBounds cfg v c v.bounds && !(decide (c.zoom = v.zoom)))).bind
                (fun c => c.markers.map
                  (fun x => ({ isAdded := false, marker := x.marker } : MarkerRef))))
              [],
          leftMarkers := st.leftMarkers }) := by
  have hfilter := resetLoop_filter v
    (fun c => Cluster.isInBounds cfg v c v.bounds) st.clusters []
  simp only [applyReset, getClustersInViewport, hfilter, List.nil_append]

/-- `resetViewport` preserves the engine-wide occurrence count of every
marker: the markers of dissolved clusters all land in the pass's
clusters, the pending markers all land in clusters, nothing is lost or
duplicated. -/
theorem totalCount_applyReset (cfg : Config) (v : MapView) (st : ClState)
    (m : Marker) :
    totalCount (applyReset cfg v st) m = totalCount st m := by
  rw [applyReset_eq, totalCount_redrawAll, totalCount_addLeftMarkers, totalCount,
    totalCount]
  show clustersCount (_ ++ _) m + List.count m st.leftMarkers = _
  rw [clustersCount_append, reAddLoop_clustersCount, clustersCount_nil,
    countRefs_collect]
  have hsplit := clustersCount_filter_split
    (fun c => Cluster.isInBounds cfg v c v.bounds && !(decide (c.zoom = v.zoom)))
    st.clusters m
  omega

/-- `LeafClusterer.addMarkers` raises each marker's count by its
multiplicity in the batch (each marker still passes the viewport
check). -/
theorem totalCount_addMarkers (cfg : Config) (v : MapView) (ms : List Marker) :
    ∀ (st : ClState) (m : Marker),
    totalCount (LeafClusterer.addMarkers cfg v st ms) m =
      totalCount st m + ms.count m := by
  induction ms with
  | nil =>
    intro st m
    rw [LeafClusterer.addMarkers, totalCount_redrawAll]
    simp
  | cons lm ls ih =>
    intro st m
    have hih := ih (LeafClusterer.addMarker cfg v st lm true false false) m
    rw [LeafClusterer.addMarkers, totalCount_redrawAll, List.foldl_cons]
    rw [LeafClusterer.addMarkers, totalCount_redrawAll] at hih
    rw [hih, totalCount_addMarker, List.count_cons]
    by_cases hmm : lm = m <;> simp [hmm] <;> omega

/-- Running a sequence of public operations: the engine-wide occurrence
count of a marker never exceeds the starting count plus the number of
times the sequence adds it, with equality when the sequence never asks to
remove it. -/
theorem run_totalCount (cfg : Config) (ops : List Op) :
    ∀ (st : ClState) (m : Marker),
    totalCount (run cfg st ops) m ≤ totalCount st m + (addsOf ops).count m ∧
    (m ∉ removesOf ops →
      totalCount (run cfg st ops) m = totalCount st m + (addsOf ops).count m) := by
  induction ops with
  | nil =>
    intro st m
    simp [run, addsOf, removesOf]
  | cons op ops ih =>
    intro st m
    cases op with
    | add v m' =>
      obtain ⟨hle, heq⟩ := ih (applyOp cfg st (Op.add v m')) m
      have hstep : totalCount (applyOp cfg st (Op.add v m')) m =
          totalCount st m + (if m' = m then 1 else 0) :=
        totalCount_addMarker cfg v st m' false false false m
      have hadds : (addsOf (Op.add v m' :: ops)).count m =
          (addsOf ops).count m + (if m' = m then 1 else 0) := by
        rw [show addsOf (Op.add v m' :: ops) = m' :: addsOf ops from rfl, List.count_cons]
        by_cases hmm : m' = m <;> simp [hmm]
      have hrem : removesOf (Op.add v m' :: ops) = removesOf ops := rfl
      rw [show run cfg st (Op.add v m' :: ops) =
        run cfg (applyOp cfg st (Op.add v m')) ops from rfl]
      constructor
      · omega
      · intro hnr
        rw [hrem] at hnr
        have := heq hnr
        omega
    | addMany v ms =>
      obtain ⟨hle, heq⟩ := ih (applyOp cfg st (Op.addMany v ms)) m
      have hstep : totalCount (applyOp cfg st (Op.addMany v ms)) m =
          totalCount st m + ms.count m :=
        totalCount_addMarkers cfg v ms st m
      have hadds : (addsOf (Op.addMany v ms :: ops)).count m =
          ms.count m + (addsOf ops).count m := by
        rw [show addsOf (Op.addMany v ms :: ops) = ms ++ addsOf ops from rfl,
          List.count_append]
      have hrem : removesOf (Op.addMany v ms :: ops) = removesOf ops := rfl
      rw [show run cfg st (Op.addMany v ms :: ops) =
        run cfg (applyOp cfg st (Op.addMany v ms)) ops from rfl]
      constructor
      · omega
      · intro hnr
        rw [hrem] at hnr
        have := heq hnr
        omega
    | remove v m' =>
      obtain ⟨hle, heq⟩ := ih (applyOp cfg st (Op.remove v m')) m
      have hstep_le : totalCount (applyOp cfg st (Op.remove v m')) m ≤ totalCount st m :=
        totalCount_removeMarker_le cfg v st m' m
      have hadds : addsOf (Op.remove v m' :: ops) = addsOf ops := rfl
      rw [show run cfg st (Op.remove v m' :: ops) =
        run cfg (applyOp cfg st (Op.remove v m')) ops from rfl, hadds]
      constructor
      · omega
      · intro hnr
        have hne : m ≠ m' := by
          intro hh
          exact hnr (by rw [show removesOf (Op.remove v m' :: ops) =
            m' :: removesOf ops from rfl, hh]; exact List.mem_cons_self m' _)
        have hnr' : m ∉ removesOf ops := by
          intro hh
          exact hnr (by rw [show removesOf (Op.remove v m' :: ops) =
            m' :: removesOf ops from rfl]; exact List.mem_cons_of_mem m' hh)
        have hstep_eq : totalCount (applyOp cfg st (Op.remove v m')) m = totalCount st m :=
          totalCount_removeMarker_ne cfg v st m' m hne
        have := heq hnr'
        omega
    | reset v =>
      obtain ⟨hle, heq⟩ := ih (applyOp cfg st (Op.reset v)) m
      have hstep : totalCount (applyOp cfg st (Op.reset v)) m = totalCount st m :=
        totalCount_applyReset cfg v st m
      have hadds : addsOf (Op.reset v :: ops) = addsOf ops := rfl
      have hrem : removesOf (Op.reset v :: ops) = removesOf ops := rfl
      rw [show run cfg st (Op.reset v :: ops) =
        run cfg (applyOp cfg st (Op.reset v)) ops from rfl, hadds]
      constructor
      · omega
      · intro hnr
        rw [hrem] at hnr
        have := heq hnr
        omega

/-- Claim C1: partition invariant.  For every sequence of public
`addMarker`/`addMarkers`/`removeMarker`/`resetViewport` operations from
the empty engine that registers each marker at most once, every marker's
engine-wide occurrence count — across all clusters' member lists plus the
pending list together — stays at most one (never duplicated, never in two
containers); a registered marker that the sequence never asks to remove
ends with count exactly one (exactly one container); a marker never
registered ends with count zero.  (Removal is modelled with the cluster
scan dispatched to `Cluster.removeMarker`; the as-written dispatch bug is
settled under the removal claim, and a throwing, state-preserving removal
would preserve the invariant trivially.) -/
theorem claim_C1 (cfg : Config) (ops : List Op) (m : Marker)
    (hreg : (addsOf ops).count m ≤ 1) :
    totalCount (run cfg emptyState ops) m ≤ 1 ∧
    ((addsOf ops).count m = 1 → m ∉ removesOf ops →
      totalCount (run cfg emptyState ops) m = 1) ∧
    ((addsOf ops).count m = 0 → totalCount (run cfg emptyState ops) m = 0) := by
  obtain ⟨hle, heq⟩ := run_totalCount cfg ops emptyState m
  have h0 : totalCount emptyState m = 0 := rfl
  refine ⟨by omega, fun h1 h2 => ?_, fun h1 => by omega⟩
  have := heq h2
  omega

/-- Claim C1 witness: a concrete sequence exercising all four operations
(including a zoom change that dissolves and rebuilds the cluster) leaves
the never-removed marker in exactly one container. -/
theorem claim_C1_witness :
    totalCount (run testConfig emptyState
      [Op.add testView markerA, Op.addMany testView [markerB, markerC],
       Op.reset testViewZoomed, Op.remove testViewZoomed markerB]) markerA = 1 :=
  (claim_C1 testConfig
    [Op.add testView markerA, Op.addMany testView [markerB, markerC],
     Op.reset testViewZoomed, Op.remove testViewZoomed markerB] markerA
    (by decide)).2.1 (by decide) (by decide)

/-- Claim C7: viewport deferral.  A marker passed to the public
`addMarker` (no `opt_isNoCheck`) whose position lies outside the current
bounds is appended to the pending list: the cluster list is untouched, so
the marker joins no cluster, contributes nothing to `getTotalMarkers` and
appears in no cluster's members.  On the next `resetViewport` — in
particular one whose viewport contains the marker — the pending list is
drained and the marker sits in exactly one cluster. -/
theorem claim_C7 (cfg : Config) (v : MapView) (st : ClState) (m : Marker)
    (hout : v.bounds.contains m.pos = false)
    (hnew : totalCount st m = 0) :
    (LeafClusterer.addMarker cfg v st m false false false).clusters = st.clusters ∧
    (LeafClusterer.addMarker cfg v st m false false false).leftMarkers =
      st.leftMarkers ++ [m] ∧
    LeafClusterer.getTotalMarkers (LeafClusterer.addMarker cfg v st m false false false) =
      LeafClusterer.getTotalMarkers st ∧
    clustersCount (LeafClusterer.addMarker cfg v st m false false false).clusters m = 0 ∧
    (∀ v' : MapView, v'.bounds.contains m.pos = true →
      (applyReset cfg v'
        (LeafClusterer.addMarker cfg v st m false false false)).leftMarkers = [] ∧
      clustersCount
        (applyReset cfg v'
          (LeafClusterer.addMarker cfg v st m false false false)).clusters m = 1) := by
  obtain ⟨h1, h2⟩ := addMarker_pending_parts cfg v st m false false hout
  have hcl0 : clustersCount st.clusters m = 0 := by
    rw [totalCount] at hnew
    omega
  refine ⟨h1, h2, ?_, ?_, fun v' hv' => ⟨rfl, ?_⟩⟩
  · rw [LeafClusterer.getTotalMarkers, LeafClusterer.getTotalMarkers, h1]
  · rw [h1]
    exact hcl0
  · have hpres := totalCount_applyReset cfg v'
      (LeafClusterer.addMarker cfg v st m false false false) m
    have hadd := totalCount_addMarker cfg v st m false false false m
    rw [if_pos rfl] at hadd
    have hleft : (applyReset cfg v'
        (LeafClusterer.addMarker cfg v st m false false false)).leftMarkers = [] := rfl
    rw [totalCount, hleft] at hpres
    simp only [List.count_nil] at hpres
    omega

/-- Claim C7 witness: the concrete marker at (200,200) is outside the
initial viewport, lands in the pending list, and after a reset against
the wider viewport sits in exactly one cluster. -/
theorem claim_C7_witness :
    (LeafClusterer.addMarker testConfig testView emptyState markerC false false
        false).leftMarkers = emptyState.leftMarkers ++ [markerC] ∧
    clustersCount
      (applyReset testConfig testViewZoomed
        (LeafClusterer.addMarker testConfig testView emptyState markerC false false
          false)).clusters markerC = 1 := by
  have h := claim_C7 testConfig testView emptyState markerC (by decide) (by decide)
  exact ⟨h.2.1, (h.2.2.2.2 testViewZoomed (by decide)).2⟩

/-- The field translation is injective. -/
theorem toL_inj (c d : Cluster) (h : toL c = toL d) : c = d := by
  cases c
  cases d
  simp only [toL, LMC.Cluster.mk.injEq] at h
  simp [h.1, h.2.1, h.2.2.1, h.2.2.2]

/-- The two implementations push member records identically. -/
theorem toL_addMarker (c : Cluster) (r : MarkerRef) :
    LMC.Cluster.addMarker (toL c) r = toL (c.addMarker r) := rfl

/-- The two implementations build fresh clusters identically. -/
theorem toL_freshCluster (v : MapView) :
    LMC.freshCluster v = toL (freshCluster v) := rfl

/-- The two implementations scan member records identically. -/
theorem removeFirstRef_eq (m : Marker) (ms : List MarkerRef) :
    LMC.removeFirstRef m ms = removeFirstRef m ms := by
  induction ms with
  | nil => rfl
  | cons r rs ih =>
    rw [LMC.removeFirstRef, removeFirstRef, ih]

/-- The two implementations test viewport intersection identically. -/
theorem toL_isInBounds (cfg : Config) (v : MapView) (c : Cluster) (b : Bounds) :
    LMC.Cluster.isInBounds cfg v (toL c) b = Cluster.isInBounds cfg v c b := by
  cases c
  rfl

/-- The two implementations remove members identically. -/
theorem toL_removeMarker (c : Cluster) (m : Marker) :
    LMC.Cluster.removeMarker (toL c) m =
      (toL (c.removeMarker m).1, (c.removeMarker m).2) := by
  obtain ⟨a, ms, z, k⟩ := c
  simp only [LMC.Cluster.removeMarker, Cluster.removeMarker, toL, removeFirstRef_eq]
  cases h : removeFirstRef m ms <;> rfl

/-- The two implementations redraw identically. -/
theorem toL_redrawCluster (cfg : Config) (v : MapView) (c : Cluster) (isForce : Bool) :
    LMC.redrawCluster cfg v (toL c) isForce =
      ((toL (redrawCluster cfg v c isForce).1), (redrawCluster cfg v c isForce).2) := by
  obtain ⟨a, ms, z, k⟩ := c
  have hb : LMC.Cluster.isInBounds cfg v (toL ⟨a, ms, z, k⟩) v.bounds =
      Cluster.isInBounds cfg v ⟨a, ms, z, k⟩ v.bounds :=
    toL_isInBounds cfg v ⟨a, ms, z, k⟩ v.bounds
  rw [LMC.redrawCluster, redrawCluster, hb]
  by_cases hg : (!isForce && !(Cluster.isInBounds cfg v ⟨a, ms, z, k⟩ v.bounds)) = true
  · rw [if_pos hg, if_pos hg]
  · rw [if_neg hg, if_neg hg]
    simp only [LMC.Cluster.getTotalMarkers, Cluster.getTotalMarkers, toL]
    by_cases hmode : v.zoom ≥ cfg.maxZoom.getD v.maxZoom ∨ ms.length = 1
    · rw [if_pos hmode, if_pos hmode]
    · rw [if_neg hmode, if_neg hmode]

/-- The two implementations run the grid-square test identically. -/
theorem toL_clusterFits (v : MapView) (g : Int) (pos : Pt) (c : Cluster) :
    LMC.clusterFits v g pos (toL c) = clusterFits v g pos c := by
  cases c
  rfl

/-- The two implementations scan candidate lists identically. -/
theorem toL_insertWith (v : MapView) (g : Int) (pos : Pt)
    (f : Cluster → Cluster) (fL : LMC.Cluster → LMC.Cluster)
    (hf : ∀ c, fL (toL c) = toL (f c)) (cs : List Cluster) :
    LMC.insertWith v g pos fL (cs.map toL) =
      (insertWith v g pos f cs).map (fun l => l.map toL) := by
  induction cs with
  | nil => rfl
  | cons c cs ih =>
    rw [List.map_cons, LMC.insertWith, insertWith, ih]
    cases h : insertWith v g pos f cs with
    | some cs' => rfl
    | none =>
      simp only [Option.map]
      rw [toL_clusterFits]
      split
      · rw [hf]
        rfl
      · rfl

/-- The two implementations apply the scan's hit identically. -/
theorem toL_addStep (cfg : Config) (v : MapView) (r : MarkerRef) (nd : Bool)
    (c : Cluster) :
    LMC.addStep cfg v r nd (toL c) = toL (addStep cfg v r nd c) := by
  rw [LMC.addStep, addStep, toL_addMarker]
  split
  · rfl
  · rw [toL_redrawCluster]

/-- The two implementations add a marker identically. -/
theorem toL_addMarkerState (cfg : Config) (v : MapView) (st : ClState) (m : Marker)
    (nd ia nc : Bool) :
    LMC.addMarker cfg v (toLState st) m nd ia nc =
      toLState (LeafClusterer.addMarker cfg v st m nd ia nc) := by
  rw [LMC.addMarker, LeafClusterer.addMarker]
  split
  · rfl
  · dsimp only
    rw [show (toLState st).clusters = st.clusters.map toL from rfl,
      toL_insertWith v cfg.gridSize (v.project m.pos)
        (addStep cfg v { isAdded := ia, marker := m } nd)
        (LMC.addStep cfg v { isAdded := ia, marker := m } nd)
        (fun c => toL_addStep cfg v { isAdded := ia, marker := m } nd c) st.clusters]
    cases h : insertWith v cfg.gridSize (v.project m.pos)
        (addStep cfg v { isAdded := ia, marker := m } nd) st.clusters with
    | some cls => rfl
    | none =>
      simp only [Option.map]
      rw [toL_freshCluster, toL_addStep]
      simp [toLState]

/-- The two implementations feed records into candidate lists
identically. -/
theorem toL_addToCandidates (cfg : Config) (v : MapView) (r : MarkerRef)
    (cands : List Cluster) :
    LMC.addToCandidates cfg v r (cands.map toL) =
      (addToCandidates cfg v r cands).map toL := by
  rw [LMC.addToCandidates, addToCandidates,
    toL_insertWith v cfg.gridSize (v.project r.marker.pos)
      (fun c => c.addMarker r) (fun c => LMC.Cluster.addMarker c r)
      (fun c => toL_addMarker c r) cands]
  cases h : insertWith v cfg.gridSize (v.project r.marker.pos)
      (fun c => c.addMarker r) cands with
  | some cands' => rfl
  | none =>
    simp only [Option.map]
    rw [toL_freshCluster, toL_addMarker]
    simp

/-- The two implementations run the re-clustering pass identically. -/
theorem toL_reAddLoop (cfg : Config) (v : MapView) (ms : List MarkerRef)
    (cands : List Cluster) :
    LMC.reAddLoop cfg v ms (cands.map toL) = (reAddLoop cfg v ms cands).map toL := by
  induction ms with
  | nil => rfl
  | cons r rest ih =>
    rw [LMC.reAddLoop, reAddLoop, ih, toL_addToCandidates]

/-- The two implementations splice dissolved clusters identically. -/
theorem toL_removeFirstCluster (c : Cluster) (cs : List Cluster) :
    LMC.removeFirstCluster (toL c) (cs.map toL) = (removeFirstCluster c cs).map toL := by
  induction cs with
  | nil => rfl
  | cons d ds ih =>
    by_cases h : d = c
    · rw [h, List.map_cons, LMC.removeFirstCluster, if_pos rfl,
        removeFirstCluster, if_pos rfl]
    · have h' : toL d ≠ toL c := fun hh => h (toL_inj d c hh)
      rw [List.map_cons, LMC.removeFirstCluster, if_neg h', removeFirstCluster,
        if_neg h, List.map_cons, ih]

/-- The two implementations dissolve stale clusters identically. -/
theorem toL_resetLoop (v : MapView) (snap : List Cluster) :
    ∀ (cs : List Cluster) (tmp : List MarkerRef),
    LMC.resetLoop v (snap.map toL) (cs.map toL, tmp) =
      ((resetLoop v snap (cs, tmp)).1.map toL, (resetLoop v snap (cs, tmp)).2) := by
  induction snap with
  | nil => intro cs tmp; rfl
  | cons c rest ih =>
    intro cs tmp
    rw [List.map_cons, LMC.resetLoop, resetLoop]
    show (if (toL c).zoom = v.zoom then _ else _) = _
    by_cases hz : c.zoom = v.zoom
    · rw [if_pos (show (toL c).zoom = v.zoom from hz), if_pos hz, ih]
    · rw [if_neg (show (toL c).zoom ≠ v.zoom from hz), if_neg hz,
        toL_removeFirstCluster, ih]
      rfl

/-- The two implementations collect the viewport snapshot identically. -/
theorem toL_getClustersInViewport (cfg : Config) (v : MapView) (st : ClState) :
    LMC.getClustersInViewport cfg v (toLState st) =
      (getClustersInViewport cfg v st).map toL := by
  rw [LMC.getClustersInViewport, getClustersInViewport]
  show (st.clusters.map toL).filter _ = _
  rw [List.filter_map]
  have hpred : ((fun c => LMC.Cluster.isInBounds cfg v c v.bounds) ∘ toL) =
      (fun c => Cluster.isInBounds cfg v c v.bounds) := by
    funext c
    exact toL_isInBounds cfg v c v.bounds
  rw [hpred]

/-- The two implementations redraw the viewport identically. -/
theorem toL_redrawAll (cfg : Config) (v : MapView) (st : ClState) :
    LMC.redrawAll cfg v (toLState st) = toLState (redrawAll cfg v st) := by
  have h : ∀ cls : List Cluster,
      (cls.map toL).map (fun c => if LMC.Cluster.isInBounds cfg v c v.bounds
          then (LMC.redrawCluster cfg v c true).1 else c) =
        (cls.map (fun c => if Cluster.isInBounds cfg v c v.bounds
          then (redrawCluster cfg v c true).1 else c)).map toL := by
    intro cls
    induction cls with
    | nil => rfl
    | cons c cs ih =>
      rw [List.map_cons, List.map_cons, List.map_cons, List.map_cons, ih]
      congr 1
      show (if LMC.Cluster.isInBounds cfg v (toL c) v.bounds then _ else _) = _
      rw [toL_isInBounds]
      by_cases hb : Cluster.isInBounds cfg v c v.bounds = true
      · rw [if_pos hb, if_pos hb]
        show (LMC.redrawCluster cfg v (toL c) true).1 = _
        rw [toL_redrawCluster]
      · rw [if_neg (by simpa using hb), if_neg (by simpa using hb)]
  rw [LMC.redrawAll, redrawAll]
  show LMC.ClState.mk ((st.clusters.map toL).map _) (toLState st).leftMarkers = _
  rw [h st.clusters]
  rfl

/-- The two implementations re-add the pending markers identically. -/
theorem toL_addLeftMarkers (cfg : Config) (v : MapView) (st : ClState) :
    LMC.addLeftMarkers cfg v (toLState st) = toLState (addLeftMarkers cfg v st) := by
  rw [LMC.addLeftMarkers, addLeftMarkers]
  have hfold : ∀ (ls : List Marker) (s : ClState),
      ls.foldl (fun s lm => LMC.addMarker cfg v s lm true false true) (toLState s) =
        toLState (ls.foldl
          (fun s lm => LeafClusterer.addMarker cfg v s lm true false true) s) := by
    intro ls
    induction ls with
    | nil => intro s; rfl
    | cons lm ls ih =>
      intro s
      rw [List.foldl_cons, List.foldl_cons, toL_addMarkerState, ih]
  show { (toLState st).leftMarkers.foldl _ (toLState st) with leftMarkers := [] } = _
  rw [show (toLState st).leftMarkers = st.leftMarkers from rfl, hfold st.leftMarkers st]
  rfl

/-- The two implementations reset the viewport identically. -/
theorem toL_applyReset (cfg : Config) (v : MapView) (st : ClState) :
    LMC.applyReset cfg v (toLState st) = toLState (applyReset cfg v st) := by
  have hsnap := toL_getClustersInViewport cfg v st
  have hloop := toL_resetLoop v (getClustersInViewport cfg v st) st.clusters []
  rw [LMC.applyReset, applyReset]
  rw [hsnap, show (toLState st).clusters = st.clusters.map toL from rfl, hloop]
  have hre : LMC.reAddLoop cfg v
      (resetLoop v (getClustersInViewport cfg v st) (st.clusters, [])).2 [] =
      (reAddLoop cfg v (resetLoop v (getClustersInViewport cfg v st)
        (st.clusters, [])).2 []).map toL :=
    toL_reAddLoop cfg v _ []
  rw [hre, ← List.map_append, show (toLState st).leftMarkers = st.leftMarkers from rfl]
  have hmid : (LMC.ClState.mk
      (((resetLoop v (getClustersInViewport cfg v st) (st.clusters, [])).1 ++
        reAddLoop cfg v (resetLoop v (getClustersInViewport cfg v st)
          (st.clusters, [])).2 []).map toL) st.leftMarkers) =
      toLState (ClState.mk
        ((resetLoop v (getClustersInViewport cfg v st) (st.clusters, [])).1 ++
          reAddLoop cfg v (resetLoop v (getClustersInViewport cfg v st)
            (st.clusters, [])).2 []) st.leftMarkers) := rfl
  rw [hmid, toL_addLeftMarkers, toL_redrawAll]

/-- The two implementations scan for removal identically. -/
theorem toL_removeScan (cfg : Config) (v : MapView) (m : Marker) (cls : List Cluster) :
    LMC.removeScan cfg v m (cls.map toL) = (removeScan cfg v m cls).map toL := by
  induction cls with
  | nil => rfl
  | cons c cs ih =>
    rw [List.map_cons, LMC.removeScan, removeScan]
    rw [show LMC.Cluster.removeMarker (toL c) m =
      (toL (c.removeMarker m).1, (c.removeMarker m).2) from toL_removeMarker c m]
    cases h : Cluster.removeMarker c m with
    | mk c' found =>
      cases found
      · show toL c :: LMC.removeScan cfg v m (cs.map toL) =
          (c :: removeScan cfg v m cs).map toL
        rw [List.map_cons, ih]
      · show (LMC.redrawCluster cfg v (toL c') false).1 :: cs.map toL =
          ((redrawCluster cfg v c' false).1 :: cs).map toL
        rw [List.map_cons,
          show (LMC.redrawCluster cfg v (toL c') false).1 =
            toL (redrawCluster cfg v c' false).1 from by rw [toL_redrawCluster]]

/-- The two implementations remove a marker identically. -/
theorem toL_removeMarkerState (cfg : Config) (v : MapView) (st : ClState) (m : Marker) :
    LMC.removeMarker cfg v (toLState st) m =
      toLState (LeafClusterer.removeMarker cfg v st m) := by
  rw [LMC.removeMarker, LeafClusterer.removeMarker]
  show LMC.ClState.mk (LMC.removeScan cfg v m (st.clusters.map toL)) _ = _
  rw [toL_removeScan]
  rfl

/-- The two implementations add marker batches identically. -/
theorem toL_addMarkers (cfg : Config) (v : MapView) (st : ClState) (ms : List Marker) :
    LMC.addMarkers cfg v (toLState st) ms =
      toLState (LeafClusterer.addMarkers cfg v st ms) := by
  rw [LMC.addMarkers, LeafClusterer.addMarkers]
  have hfold : ∀ (ls : List Marker) (s : ClState),
      ls.foldl (fun s m => LMC.addMarker cfg v s m true false false) (toLState s) =
        toLState (ls.foldl
          (fun s m => LeafClusterer.addMarker cfg v s m true false false) s) := by
    intro ls
    induction ls with
    | nil => intro s; rfl
    | cons lm ls ih =>
      intro s
      rw [List.foldl_cons, List.foldl_cons, toL_addMarkerState, ih]
  rw [hfold ms st, toL_redrawAll]

/-- The two implementations apply any public operation identically. -/
theorem toL_applyOp (cfg : Config) (st : ClState) (op : Op) :
    LMC.applyOp cfg (toLState st) op = toLState (applyOp cfg st op) := by
  cases op with
  | add v m => exact toL_addMarkerState cfg v st m false false false
  | addMany v ms => exact toL_addMarkers cfg v st ms
  | remove v m => exact toL_removeMarkerState cfg v st m
  | reset v => exact toL_applyReset cfg v st

/-- The two implementations run any operation sequence identically. -/
theorem toL_run (cfg : Config) (ops : List Op) :
    ∀ st : ClState, LMC.run cfg (toLState st) ops = toLState (run cfg st ops) := by
  induction ops with
  | nil => intro st; rfl
  | cons op ops ih =>
    intro st
    rw [show LMC.run cfg (toLState st) (op :: ops) =
        LMC.run cfg (LMC.applyOp cfg (toLState st) op) ops from rfl,
      toL_applyOp, ih,
      show run cfg st (op :: ops) = run cfg (applyOp cfg st op) ops from rfl]

/-- Claim C10: equivalence of the two near-duplicate implementations.
For every configuration, every sequence of public operations and every
behaviour of the host map (each operation carries the host's state at
that instant), the engine of src/leafclusterer.js and the engine of
src/unnamed/part_000 produce the same cluster partition (the same member
records cluster by cluster, in the same order), the same pending list,
the same cluster centers, the same zoom stamps, and the same
individual-versus-badge display-mode decisions at every map state. -/
theorem claim_C10 (cfg : Config) (ops : List Op) :
    (LMC.run cfg LMC.emptyState ops).clusters.map (fun c => c.markers) =
      (run cfg emptyState ops).clusters.map (fun c => c.markers) ∧
    (LMC.run cfg LMC.emptyState ops).leftMarkers =
      (run cfg emptyState ops).leftMarkers ∧
    (LMC.run cfg LMC.emptyState ops).clusters.map (fun c => c.center) =
      (run cfg emptyState ops).clusters.map (fun c => c.center) ∧
    (LMC.run cfg LMC.emptyState ops).clusters.map (fun c => c.zoom) =
      (run cfg emptyState ops).clusters.map (fun c => c.zoom) ∧
    ∀ v : MapView,
      (LMC.run cfg LMC.emptyState ops).clusters.map (LMC.displayIndividual cfg v) =
        (run cfg emptyState ops).clusters.map (displayIndividual cfg v) := by
  have hrun : LMC.run cfg LMC.emptyState ops = toLState (run cfg emptyState ops) :=
    toL_run cfg ops emptyState
  rw [hrun]
  refine ⟨?_, rfl, ?_, ?_, fun v => ?_⟩ <;>
  · show ((run cfg emptyState ops).clusters.map toL).map _ = _
    rw [List.map_map]
    rfl
